import Mathlib

/-!
# Verification of the pyroute2 netlink transport core

Shallow embedding of `src/pyroute2/netlink/nlsocket.py`:

* `Marshal.parse` — the reassembler/decoder loop (byte buffers are `List Nat`,
  the per-connection defragmentation dictionary is an association list, the
  `while` loop is a fuel-indexed recursion whose fuel exhaustion models
  non-termination of the Python loop);
* the policy-map operations `unregister_policy` / `get_policy_map`
  (Python `dict` as an association list with unique keys);
* `NetlinkSocket.bind` / `close` together with the process-wide `AddrPool`.

Code imported by `nlsocket.py` from modules that are not part of the sources
(`pyroute2.netlink.nlmsg`, `mtypes`, `NLMSG_ERROR`, and
`pyroute2.iocore.addrpool.AddrPool`) is modelled from the specification; each
such definition carries a doc comment beginning `Modelled from the spec:`.
-/

deriving instance DecidableEq for Except

namespace Nlsock

/-! ## Little-endian byte readers

`struct.unpack('IH', ...)` and friends on a platform-native (little-endian)
byte order, as described by the spec's wire header layout. Bytes are `Nat`s;
out-of-range reads default to 0 but every use is bounds-checked first, the
way the Python code's `struct.unpack` length requirements are modelled
explicitly in `parseGo`/`readKerr`. -/

/-- Read a 2-byte little-endian unsigned integer at index `i`. -/
def le16 (b : List Nat) (i : Nat) : Nat :=
  b.getD i 0 + 256 * b.getD (i + 1) 0

/-- Read a 4-byte little-endian unsigned integer at index `i`. -/
def le32 (b : List Nat) (i : Nat) : Nat :=
  b.getD i 0 + 256 * b.getD (i + 1) 0 + 65536 * b.getD (i + 2) 0
    + 16777216 * b.getD (i + 3) 0

/-- Encode a 2-byte little-endian unsigned integer. -/
def enc16 (n : Nat) : List Nat := [n % 256, n / 256 % 256]

/-- Encode a 4-byte little-endian unsigned integer. -/
def enc32 (n : Nat) : List Nat :=
  [n % 256, n / 256 % 256, n / 65536 % 256, n / 16777216 % 256]

/-- Python slice `l[s:t]` (clamping, as Python slices do). -/
def slice (l : List Nat) (s t : Nat) : List Nat :=
  (l.drop s).take (t - s)

/-- `abs(struct.unpack('i', ...))`: magnitude of a 4-byte two's-complement
value read as the unsigned value `u`. -/
def absSigned (u : Nat) : Nat :=
  if u < 2147483648 then u else 4294967296 - u

/-! ## The message model

`Modelled from the spec:` the `nlmsg` class and the decode errors live in the
missing `pyroute2.netlink` module.  The spec gives the fixed 16-byte wire
header (length 4B, type 2B, flags 2B, sequence 4B, pid 4B, little-endian) and
the decode-error taxonomy (header-decode error, payload-decode error,
kernel-reported error).  A freshly constructed `nlmsg()` has decoded nothing:
no header fields and `length = 0`. -/

/-- Decoded fixed wire header (spec §6: length, type, flags, sequence
number, sender pid). -/
structure NlHeader where
  length : Nat
  type : Nat
  flags : Nat
  seq : Nat
  pid : Nat
deriving Repr, DecidableEq

/-- Error attached to a message's header: a kernel-reported error code
(`NetlinkError(code)`), a header-decode failure
(`NetlinkHeaderDecodeError`), or a payload-decode failure
(`NetlinkDecodeError`) with its message. -/
inductive MsgErr where
  | kernel (code : Nat)
  | headerFail
  | payloadErr (msg : String)
deriving Repr, DecidableEq

/-- A parsed message as produced by `Marshal.parse`: the decoded header (none
for the empty replacement message created on a header-decode failure), the
attached error, the decoded encapsulated request of an error frame
(`header['errmsg']`), the event-class tag (`msg['event']`), the message
length used to advance the scan offset, and the decoded payload. -/
structure NlMsg where
  hdr : Option NlHeader
  error : Option MsgErr
  errmsg : Option (NlHeader × List Nat)
  event : Option String
  length : Nat
  payload : Option (List Nat)
deriving Repr, DecidableEq

/-- The empty replacement message: `msg = nlmsg()` with only the
header-decode error attached (its `length` is the fresh value 0). -/
def emptyMsg : NlMsg :=
  { hdr := none, error := some .headerFail, errmsg := none, event := none
    length := 0, payload := none }

/-- Modelled from the spec: the `mtypes` table of the missing
`pyroute2.netlink` module maps a message type to a human-readable
event-class tag with default `'none'`; its concrete entries are unknown and
no claim depends on the tag's text, only on whether an event tag is
attached at all. -/
def mtypesGet (t : Nat) : String :=
  "event-class-" ++ toString t

/-! ## The decode policy map

The Python `msg_map` dict maps a message-type integer to a decoder class.
Decoder classes are opaque here: the map stores a decoder identifier, and
parsing interprets an identifier through a decoder-semantics parameter
`dsem` (a registered decoder either yields decoded payload fields or raises
`NetlinkDecodeError`); an unmapped type falls back to the generic `nlmsg`
decoder, which accepts any payload. -/

/-- The policy map: association list from message type to decoder id, in
dict insertion order, keys unique. -/
abbrev MsgMap := List (Nat × Nat)

/-- `dict.get` / `dict[k]` lookup. -/
def mapGet : MsgMap → Nat → Option Nat
  | [], _ => none
  | e :: m, k => if e.1 = k then some e.2 else mapGet m k

/-- `dict[k] = v`: replace in place if the key exists, else append. -/
def mapSet : MsgMap → Nat → Nat → MsgMap
  | [], k, v => [(k, v)]
  | e :: m, k, v => if e.1 = k then (k, v) :: m else e :: mapSet m k v

/-- `del dict[k]` (under the dict invariant of unique keys, removing every
entry with the key equals removing the one entry). -/
def mapErase : MsgMap → Nat → MsgMap
  | [], _ => []
  | e :: m, k => if e.1 = k then mapErase m k else e :: mapErase m k

/-- Semantics of registered decoder classes: decoder id and payload bytes to
decoded payload fields, or a `NetlinkDecodeError` message. -/
abbrev DSem := Nat → List Nat → Except String (List Nat)

/-- `msg_class = self.msg_map.get(msg_type, nlmsg)` followed by the payload
part of `msg.decode()`: a registered decoder uses its semantics, the generic
fallback decoder accepts the raw payload. -/
def payloadDecode (mmap : MsgMap) (dsem : DSem) (t : Nat) (body : List Nat) :
    Except String (List Nat) :=
  match mapGet mmap t with
  | none => .ok body
  | some d => dsem d body

/-! ## Marshal.parse -/

/-- A parse call can abort with an uncaught `struct.error` (a read shorter
than the requested size), or fail to terminate (`fuel`): the fuel-indexed
loop returns `fuel` exactly when the Python `while` loop runs forever. -/
inductive PErr where
  | structError
  | fuel
deriving Repr, DecidableEq

/-- Decode the 16-byte header at `offset` (spec §6 wire layout). -/
def readHeader (data : List Nat) (offset : Nat) : NlHeader :=
  { length := le32 data offset
    type := le16 data (offset + 4)
    flags := le16 data (offset + 6)
    seq := le32 data (offset + 8)
    pid := le32 data (offset + 12) }

/-- Lines 67-73: for a message of type `NLMSG_ERROR` (= 2, modelled from the
spec's "reserved error-frame type"), read the signed error code at offset
16 into the message; a short read raises `struct.error`. Returns the
kernel error to attach (`None` for a zero code). -/
def readKerr (data : List Nat) (offset : Nat) (msgType : Nat) :
    Except PErr (Option Nat) :=
  if msgType = 2 then
    if data.length < offset + 20 then .error .structError
    else
      let code := absSigned (le32 data (offset + 16))
      .ok (if 0 < code then some code else none)
  else .ok none

/-- The event-tag step, lines 94-96: `mtype = msg['header'].get('type')`;
if it is in `(1, 2, 3, 4)` attach the event-class tag. The empty
replacement message has no decoded header, hence no tag. -/
def withEvent (m : NlMsg) : NlMsg :=
  match m.hdr with
  | none => m
  | some h =>
    if h.type = 1 ∨ h.type = 2 ∨ h.type = 3 ∨ h.type = 4 then
      { m with event := some (mtypesGet h.type) }
    else m

/-- Lines 75-96: construct the message at `offset` and decode it, with the
three `except` arms.  Modelled from the spec where `nlmsg.decode` is
missing: the header decodes from 16 bytes (fewer available raises
`NetlinkHeaderDecodeError`, replacing the message by `emptyMsg`); the
payload spans the declared length (a buffer exhausted mid-payload raises
`NetlinkDecodeError`); `kerr` is the pre-read kernel error, attached after
a successful decode and then possibly overwritten by an error from
decoding the encapsulated failed request (lines 81-93). -/
def decodeMsg (mmap : MsgMap) (dsem : DSem) (data : List Nat) (offset : Nat)
    (kerr : Option Nat) : Except PErr NlMsg :=
  if data.length < offset + 16 then
    .ok emptyMsg
  else
    let hdr := readHeader data offset
    if data.length < offset + hdr.length then
      .ok (withEvent { hdr := some hdr, error := some (.payloadErr "buffer exhausted")
                       errmsg := none, event := none, length := hdr.length, payload := none })
    else
      let raw := slice data offset (offset + hdr.length)
      match payloadDecode mmap dsem hdr.type (raw.drop 16) with
      | .error e =>
        .ok (withEvent { hdr := some hdr, error := some (.payloadErr e)
                         errmsg := none, event := none, length := hdr.length, payload := none })
      | .ok p =>
        match kerr with
        | none =>
          .ok (withEvent { hdr := some hdr, error := none, errmsg := none
                           event := none, length := hdr.length, payload := some p })
        | some code =>
          -- lines 81-86: decode the encapsulated error message.
          -- `struct.unpack('H', msg.raw[24:26])` with a short slice raises
          -- an uncaught struct.error.
          if raw.length < 26 then .error .structError
          else
            let encRaw := raw.drop 20
            if encRaw.length < 16 then
              -- enc.decode() raises NetlinkHeaderDecodeError, caught at
              -- line 87: the whole message is replaced by an empty one.
              .ok emptyMsg
            else
              let encHdr := readHeader encRaw 0
              if encRaw.length < encHdr.length then
                .ok (withEvent { hdr := some hdr, error := some (.payloadErr "buffer exhausted")
                                 errmsg := none, event := none, length := hdr.length
                                 payload := some p })
              else
                match payloadDecode mmap dsem encHdr.type (slice encRaw 16 encHdr.length) with
                | .error e =>
                  .ok (withEvent { hdr := some hdr, error := some (.payloadErr e)
                                   errmsg := none, event := none, length := hdr.length
                                   payload := some p })
                | .ok ep =>
                  .ok (withEvent { hdr := some hdr, error := some (.kernel code)
                                   errmsg := some (encHdr, ep), event := none
                                   length := hdr.length, payload := some p })

/-- One full loop-body decode at `offset` (lines 67-96). -/
def decodeOne (mmap : MsgMap) (dsem : DSem) (data : List Nat) (offset : Nat) :
    Except PErr NlMsg :=
  match readKerr data offset (le16 data (offset + 4)) with
  | .error e => .error e
  | .ok kerr => decodeMsg mmap dsem data offset kerr

/-- The message produced at the head of a standalone buffer (total function
used to phrase results; meaningful when `decodeOne` succeeds). -/
def theMsg (mmap : MsgMap) (dsem : DSem) (b : List Nat) : NlMsg :=
  match decodeOne mmap dsem b 0 with
  | .ok m => m
  | .error _ => emptyMsg

/-- The defragmentation dictionary: connection identity (socket) to saved
partial buffer. Python guarantees at most one entry per key because it is a
dict; here that is the provable invariant `keysNodup`. -/
abbrev Defrag := List (Nat × List Nat)

/-- Dict membership/lookup for the defragmentation buffer. -/
def defragGet : Defrag → Nat → Option (List Nat)
  | [], _ => none
  | e :: d, s => if e.1 = s then some e.2 else defragGet d s

/-- `self.defragmentation[sock] = save`. -/
def defragSet : Defrag → Nat → List Nat → Defrag
  | [], s, v => [(s, v)]
  | e :: d, s, v => if e.1 = s then (s, v) :: d else e :: defragSet d s v

/-- `del self.defragmentation[sock]`. -/
def defragErase : Defrag → Nat → Defrag
  | [], _ => []
  | e :: d, s => if e.1 = s then defragErase d s else e :: defragErase d s

/-- Each connection identity occurs at most once (the dict invariant). -/
def keysNodup (d : Defrag) : Prop :=
  (d.map (fun e => e.1)).Nodup

instance (d : Defrag) : Decidable (keysNodup d) := by
  unfold keysNodup
  infer_instance

/-- Lines 52-99: the `while offset < data.length` loop.  Each iteration
reads the 6-byte length/type prefix (`struct.error` on a short read), saves
the remainder for defragmentation when the declared length overruns the
buffer and a socket was given, otherwise decodes one message and advances
`offset` by the decoded message's `length`.  `fuel = 0` signals that the
Python loop does not terminate. -/
def parseGo (mmap : MsgMap) (dsem : DSem) (sock : Option Nat) :
    Nat → List Nat → Nat → Defrag → List NlMsg →
    Except PErr (List NlMsg × Defrag)
  | 0, _, _, _, _ => .error .fuel
  | fuel + 1, data, offset, defrag, acc =>
    if offset < data.length then
      if data.length < offset + 6 then .error .structError
      else
        match sock with
        | some s =>
          if data.length < le32 data offset + offset then
            .ok (acc.reverse, defragSet defrag s (data.drop offset))
          else
            match decodeOne mmap dsem data offset with
            | .error e => .error e
            | .ok m => parseGo mmap dsem sock fuel data (offset + m.length) defrag (m :: acc)
        | none =>
          match decodeOne mmap dsem data offset with
          | .error e => .error e
          | .ok m => parseGo mmap dsem sock fuel data (offset + m.length) defrag (m :: acc)
    else .ok (acc.reverse, defrag)

/-- `Marshal.parse(data, sock)` (lines 32-101): merge a saved partial buffer
for `sock` into the front of the data (deleting the dict entry), then run
the scan loop.  Returns the message list (or the abort error) together with
the defragmentation dictionary afterwards.  The fuel `length + 1` is exact:
a terminating Python loop makes at most one iteration per byte plus the
final check, and a non-advancing iteration repeats the same state forever,
which the fuel maps to `.error .fuel`. -/
def parse (mmap : MsgMap) (dsem : DSem) (data : List Nat) (sock : Option Nat)
    (defrag : Defrag) : Except PErr (List NlMsg) × Defrag :=
  let merged : List Nat × Defrag :=
    match sock with
    | some s =>
      match defragGet defrag s with
      | some save => (save ++ data, defragErase defrag s)
      | none => (data, defrag)
    | none => (data, defrag)
  match parseGo mmap dsem sock (merged.1.length + 1) merged.1 0 merged.2 [] with
  | .ok (msgs, d) => (.ok msgs, d)
  | .error e => (.error e, merged.2)

/-- A well-formed wire message: at least a full 16-byte header, the declared
length equal to the actual byte count, and — for an error frame (type 2) —
room for the error code (20 bytes) and, when the code is non-zero, for the
embedded failed request (36 bytes), which is what the parse loop needs to
process the message without aborting or stalling. -/
def wfMsg (b : List Nat) : Prop :=
  16 ≤ b.length ∧ le32 b 0 = b.length ∧
    (le16 b 4 = 2 → 20 ≤ b.length ∧ (0 < absSigned (le32 b 16) → 36 ≤ b.length))

instance (b : List Nat) : Decidable (wfMsg b) := by
  unfold wfMsg
  infer_instance

/-- The empty policy map (everything decodes through the generic fallback). -/
def mmap0 : MsgMap := []

/-- A trivial decoder semantics for concrete runs. -/
def dsem0 : DSem := fun _ _ => .ok []

/-- A 16-byte message of type 0 (header only, declared length 16). -/
def msg16 : List Nat := [16, 0, 0, 0, 0, 0, 0, 0, 0, 0, 0, 0, 0, 0, 0, 0]

/-- A 20-byte message of type 16 with a 4-byte payload. -/
def msgA : List Nat :=
  [20, 0, 0, 0, 16, 0, 0, 0, 0, 0, 0, 0, 0, 0, 0, 0, 1, 2, 3, 4]

/-- A 20-byte message of type 17 with a 4-byte payload. -/
def msgB : List Nat :=
  [20, 0, 0, 0, 17, 0, 0, 0, 0, 0, 0, 0, 0, 0, 0, 0, 5, 6, 7, 8]

/-- A truncated message: 10 bytes present, declared length 20, type 5 —
decoding its header fails. -/
def badBuf : List Nat := [20, 0, 0, 0, 5, 0, 0, 0, 0, 0]

/-- An error frame of total length `20 + e.length` and type 2, carrying the
unsigned 4-byte error-code value `u` at offset 16 and the embedded failed
request `e` from offset 20 (spec §6 error-frame layout). -/
def mkErrFrame (u : Nat) (e : List Nat) : List Nat :=
  enc32 (20 + e.length) ++ enc16 2 ++ enc16 0 ++ enc32 0 ++ enc32 0 ++ enc32 u ++ e

/-! ## Policy-map operations (lines 179-221)

`unregister_policy` and `get_policy_map` normalise their argument to a list
of keys (an `int` becomes a one-element list, a dict contributes its keys);
the embedding takes the normalised key list.  A missing key raises `KeyError`
(the spec's `UnknownPolicy`). -/

/-- `KeyError(k)` raised by `del map[k]` or `map[k]` — the spec's
`UnknownPolicy` error. -/
inductive PolicyErr where
  | unknownPolicy (key : Nat)
deriving Repr, DecidableEq

/-- Lines 179-201, `unregister_policy`: `for key in policy: del map[key]`,
then return the map.  Returns the call's result together with the map state
afterwards — on a `KeyError` the keys already processed stay deleted. -/
def unregister_policy (m : MsgMap) : List Nat → Except PolicyErr MsgMap × MsgMap
  | [] => (.ok m, m)
  | k :: ks =>
    match mapGet m k with
    | some _ => unregister_policy (mapErase m k) ks
    | none => (.error (.unknownPolicy k), m)

/-- Lines 217-221 body of `get_policy_map`: `ret[key] = map[key]` in key
order. -/
def getPolicyGo (m : MsgMap) (ret : MsgMap) : List Nat → Except PolicyErr MsgMap
  | [] => .ok ret
  | k :: ks =>
    match mapGet m k with
    | some v => getPolicyGo m (mapSet ret k v) ks
    | none => .error (.unknownPolicy k)

/-- Lines 203-221, `get_policy_map` with an explicit key set. -/
def get_policy_map (m : MsgMap) (ks : List Nat) : Except PolicyErr MsgMap :=
  getPolicyGo m [] ks

/-- Delete a list of keys in order (the state reached by a successful
`unregister_policy`). -/
def eraseKeys (m : MsgMap) : List Nat → MsgMap
  | [] => m
  | k :: ks => eraseKeys (mapErase m k) ks

/-- Every key is present at its turn of the deletion sequence (what a run of
`del map[key]` statements requires to succeed). -/
def allPresent : MsgMap → List Nat → Bool
  | _, [] => true
  | m, k :: ks => (mapGet m k).isSome && allPresent (mapErase m k) ks

/-! ## The endpoint allocator and socket lifecycle (lines 107-279)

Modelled from the spec: `AddrPool` comes from the missing
`pyroute2.iocore.addrpool` module.  Spec §4.1: `allocate()` returns a
previously-unallocated integer in `[minaddr, maxaddr]` and marks it
allocated, failing with `PoolExhausted` when no id is free; `free(id)`
marks an allocated id reusable and rejects an unallocated id as an error;
the pool hands out ids in reverse (highest-first) order.  The singleton at
lines 116-118 uses `minaddr = 0x0`, `maxaddr = 0x3ff`, `reverse = True`,
i.e. 1024 ports scanned from 1023 downward. -/

/-- The process-wide address pool: the set of currently allocated ports in
`[0, 0x3ff]`. -/
structure AddrPool where
  allocated : Finset Nat
deriving DecidableEq

/-- Errors of the pool, spec §4.1. -/
inductive PoolErr where
  | poolExhausted
  | notAllocated
deriving Repr, DecidableEq

/-- Modelled from the spec: `AddrPool.alloc()` — the highest free port in
`[0, 1023]`, or `PoolExhausted`. -/
def poolAlloc (p : AddrPool) : Except PoolErr (Nat × AddrPool) :=
  match (List.range 1024).reverse.find? (fun i => decide (i ∉ p.allocated)) with
  | some i => .ok (i, ⟨insert i p.allocated⟩)
  | none => .error .poolExhausted

/-- Modelled from the spec: `AddrPool.free(id)` — mark an allocated id free
again; an unallocated id is rejected as an error. -/
def poolFree (p : AddrPool) (i : Nat) : Except PoolErr AddrPool :=
  if i ∈ p.allocated then .ok ⟨p.allocated.erase i⟩ else .error .notAllocated

/-- The fields of `NetlinkSocket` that the bind/close lifecycle touches. -/
structure NetlinkSocket where
  pid : Nat
  port : Option Nat
  fixed : Bool
  epid : Option Nat
  groups : Nat
deriving Repr, DecidableEq

/-- Errors a bind can surface: an OS `socket.error` with its errno (98 is
"address already in use", the spec's `AddressInUse`), or the pool's
exhaustion error propagating out of `sockets.alloc()` (which is not a
`socket.error`, so the `except` clause at line 253 does not catch it). -/
inductive BindErr where
  | os (errno : Nat)
  | poolExhausted
deriving Repr, DecidableEq

/-- Lines 246-259: the non-fixed bind retry loop, `for i in range(1024)`.
`osBind epid` is the kernel's verdict on binding address `epid` (`none` =
success, `some errno` = `socket.error`).  Returns the result, the pool
state afterwards, and the ordered list of ports allocated from the pool
during the run (one per attempt); note the loop never calls
`sockets.free`.  The budget-exhausted `else` raises
`socket.error(98, 'Address already in use')`. -/
def bindLoop (osBind : Nat → Option Nat) (pid : Nat) :
    Nat → AddrPool → List Nat → Except BindErr (Nat × Nat) × AddrPool × List Nat
  | 0, pool, tried => (.error (.os 98), pool, tried)
  | n + 1, pool, tried =>
    match poolAlloc pool with
    | .error _ => (.error .poolExhausted, pool, tried)
    | .ok (port, pool') =>
      match osBind (pid + port * 4194304) with
      | none => (.ok (port, pid + port * 4194304), pool', tried ++ [port])
      | some e =>
        -- `if e.errno != 98: raise` — pass occupied addresses, retry
        if e = 98 then bindLoop osBind pid n pool' (tried ++ [port])
        else (.error (.os e), pool', tried ++ [port])

/-- Lines 223-259, `bind(groups)` with no pid override: the fixed path
composes the address once and binds (any failure fatal); the non-fixed path
runs the 1024-attempt retry loop. -/
def bind (osBind : Nat → Option Nat) (sk : NetlinkSocket) (pool : AddrPool)
    (groups : Nat) : Except BindErr NetlinkSocket × AddrPool × List Nat :=
  if sk.fixed then
    match osBind (sk.pid + sk.port.getD 0 * 4194304) with
    | none =>
      (.ok { sk with groups := groups
                     epid := some (sk.pid + sk.port.getD 0 * 4194304) }, pool, [])
    | some e => (.error (.os e), pool, [])
  else
    match bindLoop osBind sk.pid 1024 pool [] with
    | (.ok (port, epid), pool', tried) =>
      (.ok { sk with groups := groups, port := some port, epid := some epid },
        pool', tried)
    | (.error e, pool', tried) => (.error e, pool', tried)

/-- `close` can raise through the `assert self.port is not None` or through
`sockets.free` rejecting an unallocated port. -/
inductive CloseErr where
  | assertionError
  | freeError
deriving Repr, DecidableEq

/-- Lines 269-279, `close()`: if `epid` is set, assert the port exists,
return it to the pool unless the address was fixed, and clear `epid`;
the underlying `socket.socket.close` is idempotent and raises nothing. -/
def close (sk : NetlinkSocket) (pool : AddrPool) :
    Except CloseErr (NetlinkSocket × AddrPool) :=
  match sk.epid with
  | some _ =>
    match sk.port with
    | none => .error .assertionError
    | some p =>
      if sk.fixed then .ok ({ sk with epid := none }, pool)
      else
        match poolFree pool p with
        | .ok pool' => .ok ({ sk with epid := none }, pool')
        | .error _ => .error .freeError
  | none => .ok (sk, pool)

/-- Number of ports the pool can still hand out. -/
def freeCount (p : AddrPool) : Nat :=
  (Finset.range 1024 \ p.allocated).card

/-- An OS where only the address composed from port 1023 is occupied. -/
def osBind1 : Nat → Option Nat :=
  fun e => if e = 1023 * 4194304 then some 98 else none

/-- A pool with ports 0-1021 allocated, so that the reverse-order allocator
hands out 1023 and then 1022. -/
def pool2 : AddrPool := ⟨Finset.range 1022⟩

/-! ## Lemmas about the policy map -/

theorem mapGet_erase (m : MsgMap) (k a : Nat) :
    mapGet (mapErase m k) a = if a = k then none else mapGet m a := by
  induction m with
  | nil => simp [mapErase, mapGet]
  | cons e m ih =>
    simp only [mapErase, mapGet]
    by_cases hek : e.1 = k
    · simp only [if_pos hek, ih]
      by_cases hak : a = k
      · simp [hak]
      · have hne : ¬ e.1 = a := fun h => hak (by rw [← h, hek])
        simp [hak, hne]
    · simp only [if_neg hek, mapGet, ih]
      by_cases hea : e.1 = a
      · have hak : ¬ a = k := fun h => hek (by rw [hea, h])
        simp [hea, hak]
      · simp [hea]

theorem mapGet_eraseKeys (ks : List Nat) (m : MsgMap) (a : Nat) :
    mapGet (eraseKeys m ks) a = if a ∈ ks then none else mapGet m a := by
  induction ks generalizing m with
  | nil => simp [eraseKeys]
  | cons k ks ih =>
    show mapGet (eraseKeys (mapErase m k) ks) a = _
    rw [ih, mapGet_erase]
    by_cases hak : a = k
    · simp [hak]
    · by_cases haks : a ∈ ks <;> simp [hak, haks]

theorem mapGet_append (m1 m2 : MsgMap) (a : Nat) :
    mapGet (m1 ++ m2) a =
      match mapGet m1 a with
      | some v => some v
      | none => mapGet m2 a := by
  induction m1 with
  | nil => simp [mapGet]
  | cons e m1 ih =>
    by_cases hea : e.1 = a <;> simp [mapGet, hea, ih]

theorem mapSet_fresh (ret : MsgMap) (k v : Nat) (h : mapGet ret k = none) :
    mapSet ret k v = ret ++ [(k, v)] := by
  induction ret with
  | nil => simp [mapSet]
  | cons e m ih =>
    by_cases hek : e.1 = k
    · rw [mapGet, if_pos hek] at h
      exact Option.noConfusion h
    · rw [mapGet, if_neg hek] at h
      simp [mapSet, hek, ih h]

theorem unregister_all_present (ks : List Nat) (m : MsgMap)
    (h : allPresent m ks = true) :
    unregister_policy m ks = (.ok (eraseKeys m ks), eraseKeys m ks) := by
  induction ks generalizing m with
  | nil => simp [unregister_policy, eraseKeys]
  | cons k ks ih =>
    simp only [allPresent, Bool.and_eq_true] at h
    obtain ⟨hk, hks⟩ := h
    obtain ⟨v, hv⟩ := Option.isSome_iff_exists.mp hk
    show unregister_policy m (k :: ks) = _
    rw [unregister_policy, hv]
    exact ih (mapErase m k) hks

theorem unregister_missing_key (ks : List Nat) (m : MsgMap)
    (h : ∃ k ∈ ks, mapGet m k = none) :
    ∃ k, (unregister_policy m ks).1 = .error (.unknownPolicy k) := by
  induction ks generalizing m with
  | nil => simp at h
  | cons a ks ih =>
    obtain ⟨k, hk, hnone⟩ := h
    match hma : mapGet m a with
    | none =>
      exact ⟨a, by rw [unregister_policy, hma]⟩
    | some v =>
      have hka : k ≠ a := fun he => by rw [he, hma] at hnone; exact Option.noConfusion hnone
      have hk' : k ∈ ks := by
        rcases List.mem_cons.mp hk with h | h
        · exact absurd h hka
        · exact h
      have : mapGet (mapErase m a) k = none := by
        rw [mapGet_erase]
        simp [hka, hnone]
      have := ih (mapErase m a) ⟨k, hk', this⟩
      rw [unregister_policy, hma]
      exact this

theorem getPolicyGo_missing_key (ks : List Nat) (m ret : MsgMap)
    (h : ∃ k ∈ ks, mapGet m k = none) :
    ∃ k, getPolicyGo m ret ks = .error (.unknownPolicy k) := by
  induction ks generalizing ret with
  | nil => simp at h
  | cons a ks ih =>
    obtain ⟨k, hk, hnone⟩ := h
    match hma : mapGet m a with
    | none => exact ⟨a, by rw [getPolicyGo, hma]⟩
    | some v =>
      have hka : k ≠ a := fun he => by rw [he, hma] at hnone; exact Option.noConfusion hnone
      have hk' : k ∈ ks := by
        rcases List.mem_cons.mp hk with h | h
        · exact absurd h hka
        · exact h
      have := ih (mapSet ret a v) ⟨k, hk', hnone⟩
      rw [getPolicyGo, hma]
      exact this

theorem getPolicyGo_all_present (m : MsgMap) (ks : List Nat) :
    ∀ ret : MsgMap, (∀ k ∈ ks, (mapGet m k).isSome) → ks.Nodup →
    (∀ k ∈ ks, mapGet ret k = none) →
    getPolicyGo m ret ks = .ok (ret ++ ks.map fun k => (k, (mapGet m k).getD 0)) := by
  induction ks with
  | nil => intro ret _ _ _; simp [getPolicyGo]
  | cons k ks ih =>
    intro ret hpres hnd hfresh
    obtain ⟨v, hv⟩ := Option.isSome_iff_exists.mp (hpres k (List.mem_cons_self k ks))
    simp only [getPolicyGo, hv]
    rw [mapSet_fresh ret k v (hfresh k (List.mem_cons_self k ks))]
    have hnd' := (List.nodup_cons.mp hnd).2
    have hknotin := (List.nodup_cons.mp hnd).1
    rw [ih (ret ++ [(k, v)]) (fun a ha => hpres a (List.mem_cons_of_mem k ha)) hnd'
        (fun a ha => by
          rw [mapGet_append, hfresh a (List.mem_cons_of_mem k ha)]
          have : a ≠ k := fun he => hknotin (he ▸ ha)
          simp [mapGet, Ne.symm this])]
    simp [hv]

/-- Claim C9: `unregister_policy` and `get_policy_map` fail with
`UnknownPolicy` whenever a requested key is absent from the policy map;
when every requested key is present (and the keys are distinct),
`unregister_policy` removes exactly the requested keys and `get_policy_map`
returns exactly the requested sub-map, in request order. -/
theorem policy_unknown_and_submap (m : MsgMap) (ks : List Nat) :
    ((∃ k ∈ ks, mapGet m k = none) →
      (∃ k, (unregister_policy m ks).1 = .error (.unknownPolicy k)) ∧
      (∃ k, get_policy_map m ks = .error (.unknownPolicy k))) ∧
    (allPresent m ks = true → ks.Nodup →
      unregister_policy m ks = (.ok (eraseKeys m ks), eraseKeys m ks) ∧
      (∀ a, mapGet (eraseKeys m ks) a = if a ∈ ks then none else mapGet m a) ∧
      get_policy_map m ks = .ok (ks.map fun k => (k, (mapGet m k).getD 0))) := by
  constructor
  · intro h
    exact ⟨unregister_missing_key ks m h, getPolicyGo_missing_key ks m [] h⟩
  · intro hall hnd
    have hpres : ∀ k ∈ ks, (mapGet m k).isSome := by
      clear hnd
      induction ks generalizing m with
      | nil => intro k hk; simp at hk
      | cons a ks ih =>
        intro k hk
        simp only [allPresent, Bool.and_eq_true] at hall
        rcases List.mem_cons.mp hk with rfl | hk'
        · exact hall.1
        · have := ih (mapErase m a) hall.2 k hk'
          rw [mapGet_erase] at this
          by_cases hka : k = a
          · simp [hka] at this
          · simpa [hka] using this
    refine ⟨unregister_all_present ks m hall,
      fun a => mapGet_eraseKeys ks m a,
      getPolicyGo_all_present m ks [] hpres hnd (fun k _ => rfl)⟩

/-- Witness for C9 at a concrete map and key set. -/
theorem policy_unknown_and_submap_witness :
    unregister_policy [(1, 10), (2, 20), (3, 30)] [1, 3] = (.ok [(2, 20)], [(2, 20)]) ∧
    get_policy_map [(1, 10), (2, 20), (3, 30)] [1, 3] = .ok [(1, 10), (3, 30)] := by
  have h := (policy_unknown_and_submap [(1, 10), (2, 20), (3, 30)] [1, 3]).2
    (by decide) (by decide)
  exact ⟨h.1.trans (by decide), h.2.2.trans (by decide)⟩

/-- Claim C10: when `unregister_policy` is given a key list whose prefix is
present but whose next key is absent, it raises `UnknownPolicy` after
having already deleted the whole prefix — the map is mutated even though
the call fails. -/
theorem unregister_partial_removal (m : MsgMap) (ks1 : List Nat) (k : Nat)
    (ks2 : List Nat) (h1 : allPresent m ks1 = true)
    (h2 : mapGet (eraseKeys m ks1) k = none) :
    unregister_policy m (ks1 ++ k :: ks2) = (.error (.unknownPolicy k), eraseKeys m ks1) ∧
    ∀ a ∈ ks1, mapGet (eraseKeys m ks1) a = none := by
  constructor
  · induction ks1 generalizing m with
    | nil =>
      simp only [eraseKeys] at h2
      simp [unregister_policy, h2, eraseKeys]
    | cons a ks1 ih =>
      simp only [allPresent, Bool.and_eq_true] at h1
      obtain ⟨v, hv⟩ := Option.isSome_iff_exists.mp h1.1
      show unregister_policy m (a :: (ks1 ++ k :: ks2)) = _
      rw [unregister_policy, hv]
      exact ih (mapErase m a) h1.2 h2
  · intro a ha
    rw [mapGet_eraseKeys]
    simp [ha]

/-- Witness for C10: deleting `[1, 7, 2]` from a map without key 7 fails
with `UnknownPolicy 7` after key 1 is already gone. -/
theorem unregister_partial_removal_witness :
    unregister_policy [(1, 10), (2, 20), (3, 30)] [1, 7, 2]
      = (.error (.unknownPolicy 7), [(2, 20), (3, 30)]) ∧
    mapGet [(2, 20), (3, 30)] 1 = none := by
  have h := unregister_partial_removal [(1, 10), (2, 20), (3, 30)] [1] 7 [2]
    (by decide) (by decide)
  exact ⟨h.1.trans (by decide), by decide⟩

/-! ## Lemmas about the allocator and bind -/

theorem poolAlloc_exhausted (p : AddrPool) (h : freeCount p = 0) :
    poolAlloc p = .error .poolExhausted := by
  have hall : ∀ i < 1024, i ∈ p.allocated := by
    intro i hi
    by_contra hmem
    have : i ∈ Finset.range 1024 \ p.allocated :=
      Finset.mem_sdiff.mpr ⟨Finset.mem_range.mpr hi, hmem⟩
    rw [freeCount, Finset.card_eq_zero] at h
    simp [h] at this
  have : (List.range 1024).reverse.find? (fun i => decide (i ∉ p.allocated)) = none := by
    rw [List.find?_eq_none]
    intro i hi
    have : i < 1024 := List.mem_range.mp (List.mem_reverse.mp hi)
    simp [hall i this]
  rw [poolAlloc, this]

theorem poolAlloc_free (p : AddrPool) (h : 0 < freeCount p) :
    ∃ i, poolAlloc p = .ok (i, ⟨insert i p.allocated⟩) ∧ i ∉ p.allocated ∧
      i < 1024 ∧ freeCount ⟨insert i p.allocated⟩ = freeCount p - 1 := by
  obtain ⟨i, hi⟩ := Finset.card_pos.mp h
  have hfound : ((List.range 1024).reverse.find? (fun i => decide (i ∉ p.allocated))).isSome := by
    rw [List.find?_isSome]
    refine ⟨i, ?_, ?_⟩
    · rw [List.mem_reverse, List.mem_range]
      exact Finset.mem_range.mp (Finset.mem_sdiff.mp hi).1
    · simp [(Finset.mem_sdiff.mp hi).2]
  obtain ⟨j, hj⟩ := Option.isSome_iff_exists.mp hfound
  have hjlt : j < 1024 := List.mem_range.mp (List.mem_reverse.mp (List.mem_of_find?_eq_some hj))
  have hjnot : j ∉ p.allocated := by simpa using List.find?_some hj
  refine ⟨j, ?_, hjnot, hjlt, ?_⟩
  · rw [poolAlloc, hj]
  · rw [freeCount, freeCount, Finset.sdiff_insert,
      Finset.card_erase_of_mem
        (Finset.mem_sdiff.mpr ⟨Finset.mem_range.mpr hjlt, hjnot⟩)]

theorem poolAlloc_ok_shape (p : AddrPool) (x : Nat × AddrPool)
    (h : poolAlloc p = .ok x) : x.2.allocated = insert x.1 p.allocated := by
  rw [poolAlloc] at h
  match hf : (List.range 1024).reverse.find? (fun i => decide (i ∉ p.allocated)) with
  | none => rw [hf] at h; exact Except.noConfusion h
  | some i =>
    rw [hf] at h
    have := Except.ok.inj h
    rw [← this]

/-- All 1024 composed addresses already in use at the OS level: the retry
loop burns its whole budget (one pool allocation per attempt) and then the
`for`-`else` raises `socket.error(98)`. -/
theorem bindLoop_all_busy (pid : Nat) :
    ∀ (n : Nat) (pool : AddrPool) (tried : List Nat), n ≤ freeCount pool →
    ∃ pool' tried',
      bindLoop (fun _ => some 98) pid n pool tried = (.error (.os 98), pool', tried') ∧
      tried'.length = tried.length + n := by
  intro n
  induction n with
  | zero => intro pool tried _; exact ⟨pool, tried, rfl, rfl⟩
  | succ n ih =>
    intro pool tried hn
    obtain ⟨i, halloc, _, _, hcount⟩ := poolAlloc_free pool (by omega)
    obtain ⟨pool', tried', heq, hlen⟩ := ih ⟨insert i pool.allocated⟩ (tried ++ [i]) (by omega)
    refine ⟨pool', tried', ?_, ?_⟩
    · rw [bindLoop, halloc]
      simpa using heq
    · simp at hlen
      omega

set_option maxRecDepth 8192 in
/-- Claim C3 (amended): with `fixed = false`, when all 1024 composable
addresses are already bound at the OS level and the pool is free, `bind`
fails with the "address in use" `socket.error(98)` after exactly 1024
attempts — the pool never raises because the budget equals the pool size.
(As literally stated — all 1024 ports allocated *in the pool* — the claim
fails: see the counterexample, where `sockets.alloc()` raises the pool's
exhaustion error before any bind attempt.) -/
theorem bind_all_addrs_busy (sk : NetlinkSocket) (g : Nat) (pool : AddrPool)
    (h1 : sk.fixed = false) (h2 : pool.allocated = ∅) :
    ∃ pool' tried',
      bind (fun _ => some 98) sk pool g = (.error (.os 98), pool', tried') ∧
      tried'.length = 1024 := by
  have hfree : freeCount pool = 1024 := by
    rw [freeCount, h2, Finset.sdiff_empty, Finset.card_range]
  obtain ⟨pool', tried', heq, hlen⟩ :=
    bindLoop_all_busy sk.pid 1024 pool [] (by omega)
  refine ⟨pool', tried', ?_, by simpa using hlen⟩
  rw [bind, if_neg (fun hc => by rw [h1] at hc; exact Bool.noConfusion hc), heq]

/-- Witness for the amended C3 at a concrete unbound socket and a fresh
pool. -/
theorem bind_all_addrs_busy_witness :
    (⟨0, none, false, none, 0⟩ : NetlinkSocket).fixed = false ∧
    (⟨∅⟩ : AddrPool).allocated = ∅ ∧
    ∃ pool' tried',
      bind (fun _ => some 98) ⟨0, none, false, none, 0⟩ ⟨∅⟩ 0
        = (.error (.os 98), pool', tried') ∧ tried'.length = 1024 :=
  ⟨rfl, rfl, bind_all_addrs_busy ⟨0, none, false, none, 0⟩ 0 ⟨∅⟩ rfl rfl⟩

/-- A full pool: the allocator raises on the first iteration of a non-empty
retry budget, and the loop forwards the pool error untouched. -/
theorem bindLoop_exhausted (f : Nat → Option Nat) (pid n : Nat) (pool : AddrPool)
    (tried : List Nat) (hn : n ≠ 0)
    (h : poolAlloc pool = .error .poolExhausted) :
    bindLoop f pid n pool tried = (.error .poolExhausted, pool, tried) := by
  cases n with
  | zero => exact absurd rfl hn
  | succ m => rw [bindLoop, h]

/-- A non-fixed `bind` forwards whatever error the retry loop produces. -/
theorem bind_err_of_loop (f : Nat → Option Nat) (sk : NetlinkSocket)
    (pool : AddrPool) (g : Nat) (e : BindErr) (pool' : AddrPool)
    (tried : List Nat) (h1 : sk.fixed = false)
    (h : bindLoop f sk.pid 1024 pool [] = (.error e, pool', tried)) :
    bind f sk pool g = (.error e, pool', tried) := by
  rw [bind, if_neg (fun hc => by rw [h1] at hc; exact Bool.noConfusion hc), h]

/-- Counterexample to C3 as stated: when all 1024 ports of the *pool* are
already allocated, `sockets.alloc()` raises the pool-exhaustion error on
the first iteration; it is not a `socket.error`, so it propagates — `bind`
fails with a pool-exhaustion kind after 0 bind attempts, not with
`AddressInUse` after 1024. -/
theorem bind_pool_exhausted_cex :
    bind (fun _ => some 98) ⟨0, none, false, none, 0⟩ ⟨Finset.range 1024⟩ 0
      = (.error .poolExhausted, ⟨Finset.range 1024⟩, []) :=
  bind_err_of_loop (fun _ => some 98) ⟨0, none, false, none, 0⟩
    ⟨Finset.range 1024⟩ 0 .poolExhausted ⟨Finset.range 1024⟩ [] rfl
    (bindLoop_exhausted (fun _ => some 98) 0 1024 ⟨Finset.range 1024⟩ []
      (by omega)
      (poolAlloc_exhausted ⟨Finset.range 1024⟩
        (by rw [freeCount, Finset.sdiff_self, Finset.card_empty])))

/-- Failed bind attempts never return their port to the pool: every port
allocated during the loop is still allocated when the loop returns, and the
allocated set only grows. -/
theorem bindLoop_never_frees (osBind : Nat → Option Nat) (pid : Nat) :
    ∀ (n : Nat) (pool : AddrPool) (tried : List Nat) (res : Except BindErr (Nat × Nat))
      (pool' : AddrPool) (tried' : List Nat),
    bindLoop osBind pid n pool tried = (res, pool', tried') →
    (∀ p ∈ tried, p ∈ pool.allocated) →
    (∀ p ∈ tried', p ∈ pool'.allocated) ∧ pool.allocated ⊆ pool'.allocated := by
  intro n
  induction n with
  | zero =>
    intro pool tried res pool' tried' h htried
    rw [bindLoop] at h
    simp only [Prod.mk.injEq] at h
    obtain ⟨-, h2, h3⟩ := h
    subst h2 h3
    exact ⟨htried, fun a ha => ha⟩
  | succ n ih =>
    intro pool tried res pool' tried' h htried
    rw [bindLoop] at h
    split at h
    · -- poolAlloc failed: the loop returns the pool unchanged
      simp only [Prod.mk.injEq] at h
      obtain ⟨-, h2, h3⟩ := h
      subst h2 h3
      exact ⟨htried, fun a ha => ha⟩
    · -- poolAlloc returned (port, poolA) with poolA = insert port pool
      rename_i port poolA halloc
      have hins : poolA.allocated = insert port pool.allocated :=
        poolAlloc_ok_shape pool (port, poolA) halloc
      have htried' : ∀ p ∈ tried ++ [port], p ∈ poolA.allocated := by
        intro p hp
        rw [hins]
        rcases List.mem_append.mp hp with hp | hp
        · exact Finset.mem_insert_of_mem (htried p hp)
        · rw [List.mem_singleton.mp hp]
          exact Finset.mem_insert_self _ _
      have hsub : pool.allocated ⊆ poolA.allocated := by
        rw [hins]
        exact Finset.subset_insert _ _
      split at h
      · -- OS bind succeeded
        simp only [Prod.mk.injEq] at h
        obtain ⟨-, h2, h3⟩ := h
        subst h2 h3
        exact ⟨htried', hsub⟩
      · -- OS bind failed with some errno
        split at h
        · -- errno 98: retry without freeing the port
          obtain ⟨ht, hs⟩ := ih poolA (tried ++ [port]) res pool' tried' h htried'
          exact ⟨ht, hsub.trans hs⟩
        · -- other errno: re-raised
          simp only [Prod.mk.injEq] at h
          obtain ⟨-, h2, h3⟩ := h
          subst h2 h3
          exact ⟨htried', hsub⟩

set_option maxRecDepth 8192 in
/-- One failed attempt of the retry loop: allocate a port, get "address in
use" from the OS, retry — without freeing the port. -/
theorem bindLoop_step (f : Nat → Option Nat) (pid n : Nat) (pool poolA : AddrPool)
    (tried : List Nat) (port : Nat)
    (halloc : poolAlloc pool = .ok (port, poolA))
    (hos : f (pid + port * 4194304) = some 98) :
    bindLoop f pid (n + 1) pool tried = bindLoop f pid n poolA (tried ++ [port]) := by
  rw [bindLoop, halloc]
  simp only [hos]
  norm_num

/-- One successful attempt of the retry loop. -/
theorem bindLoop_success (f : Nat → Option Nat) (pid n : Nat) (pool poolA : AddrPool)
    (tried : List Nat) (port : Nat)
    (halloc : poolAlloc pool = .ok (port, poolA))
    (hos : f (pid + port * 4194304) = none) :
    bindLoop f pid (n + 1) pool tried
      = (.ok (port, pid + port * 4194304), poolA, tried ++ [port]) := by
  rw [bindLoop, halloc]
  simp only [hos]

/-- Claim C4 (amended): in a non-fixed `bind`, a retry iteration that fails
with "address in use" does **not** release its port — after `bind` returns,
every port allocated during the run (failed attempts included) is still
allocated in the pool. -/
theorem bind_never_frees (osBind : Nat → Option Nat) (sk : NetlinkSocket)
    (pool : AddrPool) (g : Nat) (res : Except BindErr NetlinkSocket)
    (pool' : AddrPool) (tried : List Nat) (h1 : sk.fixed = false)
    (h : bind osBind sk pool g = (res, pool', tried)) :
    (∀ p ∈ tried, p ∈ pool'.allocated) ∧ pool.allocated ⊆ pool'.allocated := by
  rw [bind, if_neg (fun hc => by rw [h1] at hc; exact Bool.noConfusion hc)] at h
  split at h
  · -- the loop bound a port
    rename_i x port epid poolL triedL hloop
    simp only [Prod.mk.injEq] at h
    obtain ⟨-, h2, h3⟩ := h
    subst h2 h3
    exact bindLoop_never_frees osBind sk.pid 1024 pool [] _ _ _ hloop
      (fun p hp => absurd hp (List.not_mem_nil p))
  · -- the loop failed
    rename_i x e poolL triedL hloop
    simp only [Prod.mk.injEq] at h
    obtain ⟨-, h2, h3⟩ := h
    subst h2 h3
    exact bindLoop_never_frees osBind sk.pid 1024 pool [] _ _ _ hloop
      (fun p hp => absurd hp (List.not_mem_nil p))

theorem poolAlloc_pool2 : poolAlloc pool2 = .ok (1023, ⟨insert 1023 pool2.allocated⟩) := by
  have hfind : (List.range 1024).reverse.find?
      (fun i => decide (i ∉ pool2.allocated)) = some 1023 := by
    rw [List.range_succ, List.reverse_append, List.reverse_singleton,
      List.singleton_append, List.find?_cons]
    rw [show (decide (1023 ∉ pool2.allocated)) = true from by simp [pool2]]
  rw [poolAlloc, hfind]

theorem poolAlloc_pool2_again : poolAlloc ⟨insert 1023 pool2.allocated⟩
    = .ok (1022, ⟨insert 1022 (insert 1023 pool2.allocated)⟩) := by
  have hfind : (List.range 1024).reverse.find?
      (fun i => decide (i ∉ insert 1023 pool2.allocated)) = some 1022 := by
    rw [List.range_succ, List.range_succ, List.reverse_append, List.reverse_append,
      List.reverse_singleton, List.singleton_append, List.reverse_singleton,
      List.singleton_append, List.find?_cons]
    rw [show (decide (1023 ∉ insert 1023 pool2.allocated)) = false from by simp]
    rw [List.find?_cons]
    rw [show (decide (1022 ∉ insert 1023 pool2.allocated)) = true from by simp [pool2]]
  rw [poolAlloc, hfind]

/-- Counterexample to C4 as stated: with ports 0-1021 pre-allocated and only
the address of port 1023 occupied at the OS, `bind` allocates 1023 (attempt
fails with errno 98), retries with 1022 and succeeds — and port 1023 is
*still allocated* in the pool when `bind` returns, although it was free
before the call.  The claim said every failed attempt releases its port. -/
theorem bind_leaks_port_cex :
    bind osBind1 ⟨0, none, false, none, 0⟩ pool2 0
      = (.ok ⟨0, some 1022, false, some (0 + 1022 * 4194304), 0⟩,
          ⟨insert 1022 (insert 1023 pool2.allocated)⟩, [1023, 1022]) ∧
    1023 ∉ pool2.allocated ∧
    1023 ∈ (⟨insert 1022 (insert 1023 pool2.allocated)⟩ : AddrPool).allocated := by
  refine ⟨?_, by simp [pool2], by simp⟩
  have hos1 : osBind1 (0 + 1023 * 4194304) = some 98 := by norm_num [osBind1]
  have hos2 : osBind1 (0 + 1022 * 4194304) = none := by norm_num [osBind1]
  have hloop : bindLoop osBind1 0 1024 pool2 []
      = (.ok (1022, 0 + 1022 * 4194304),
          ⟨insert 1022 (insert 1023 pool2.allocated)⟩, [1023, 1022]) := by
    rw [bindLoop_step osBind1 0 1023 pool2 ⟨insert 1023 pool2.allocated⟩ [] 1023
        poolAlloc_pool2 hos1,
      bindLoop_success osBind1 0 1022 ⟨insert 1023 pool2.allocated⟩
        ⟨insert 1022 (insert 1023 pool2.allocated)⟩ ([] ++ [1023]) 1022
        poolAlloc_pool2_again hos2]
    norm_num
  rw [bind, if_neg (fun hc => Bool.noConfusion hc), hloop]

/-- A free pool and an unoccupied OS: `bind` succeeds on the first attempt
with port 1023. -/
theorem bind_first_try :
    bind (fun _ => none) ⟨0, none, false, none, 0⟩ ⟨∅⟩ 0
      = (.ok ⟨0, some 1023, false, some (0 + 1023 * 4194304), 0⟩,
          ⟨insert 1023 (∅ : Finset Nat)⟩, [1023]) := by
  have halloc : poolAlloc ⟨∅⟩ = .ok (1023, ⟨insert 1023 (∅ : Finset Nat)⟩) := by
    have hfind : (List.range 1024).reverse.find?
        (fun i => decide (i ∉ (⟨∅⟩ : AddrPool).allocated)) = some 1023 := by
      rw [List.range_succ, List.reverse_append, List.reverse_singleton,
        List.singleton_append, List.find?_cons]
      rw [show (decide (1023 ∉ (⟨∅⟩ : AddrPool).allocated)) = true from by simp]
    rw [poolAlloc, hfind]
  rw [bind, if_neg (fun hc => Bool.noConfusion hc),
    bindLoop_success (fun _ => none) 0 1023 ⟨∅⟩ ⟨insert 1023 (∅ : Finset Nat)⟩ [] 1023
      halloc rfl]
  norm_num

/-- Witness for the amended C4 at a concrete run of `bind`. -/
theorem bind_never_frees_witness :
    1023 ∈ (⟨insert 1023 (∅ : Finset Nat)⟩ : AddrPool).allocated :=
  (bind_never_frees (fun _ => none) ⟨0, none, false, none, 0⟩ ⟨∅⟩ 0 _ _ _
    rfl bind_first_try).1 1023 (by simp)

/-! ## close -/

/-- Claim C8: `close` returns the port to the allocator only when the
endpoint holds a pool-allocated (non-fixed) port, and at most once: the
first `close` clears `epid` (releasing the port exactly when `fixed` is
false), and a second `close` performs no further release and raises no
error. -/
theorem close_release_once (sk : NetlinkSocket) (pool : AddrPool)
    (h : ∀ e, sk.epid = some e →
      ∃ p, sk.port = some p ∧ (sk.fixed = false → p ∈ pool.allocated)) :
    ∃ sk' pool', close sk pool = .ok (sk', pool') ∧
      sk'.epid = none ∧ sk'.port = sk.port ∧ sk'.fixed = sk.fixed ∧
      ((sk.fixed = true ∨ sk.epid = none) → pool' = pool) ∧
      (∀ e p, sk.epid = some e → sk.port = some p → sk.fixed = false →
        pool'.allocated = pool.allocated.erase p) ∧
      close sk' pool' = .ok (sk', pool') := by
  match hepid : sk.epid with
  | none =>
    refine ⟨sk, pool, ?_, hepid, rfl, rfl, fun _ => rfl, ?_, ?_⟩
    · simp only [close, hepid]
    · intro e p he
      exact absurd he (fun hh => Option.noConfusion hh)
    · simp only [close, hepid]
  | some e0 =>
    obtain ⟨p, hport, hmem⟩ := h e0 hepid
    match hfix : sk.fixed with
    | true =>
      refine ⟨{ sk with epid := none }, pool, ?_, rfl, rfl, hfix, fun _ => rfl, ?_, ?_⟩
      · simp only [close, hepid, hport]
        rw [if_pos hfix]
      · intro e p' _ _ hf
        exact absurd hf (fun hh => Bool.noConfusion hh)
      · simp only [close]
    | false =>
      have hfree : poolFree pool p = .ok ⟨pool.allocated.erase p⟩ := by
        rw [poolFree, if_pos (hmem hfix)]
      refine ⟨{ sk with epid := none }, ⟨pool.allocated.erase p⟩, ?_, rfl, rfl, hfix,
        ?_, ?_, ?_⟩
      · simp only [close, hepid, hport, hfree]
        rw [if_neg (fun hc => by rw [hfix] at hc; exact Bool.noConfusion hc)]
      · intro hor
        rcases hor with hc | hc
        · exact absurd hc (fun hh => Bool.noConfusion hh)
        · exact absurd hc (fun hh => Option.noConfusion hh)
      · intro e p' he hp' hf
        rw [hport] at hp'
        rw [Option.some.inj hp']
      · simp only [close]

/-! ## Read locality: reads inside one message see only that message -/

theorem getD_mid (pre b post : List Nat) (i : Nat) (h : i < b.length) :
    (pre ++ (b ++ post)).getD (pre.length + i) 0 = b.getD i 0 := by
  rw [List.getD_append_right pre (b ++ post) 0 (pre.length + i) (Nat.le_add_right _ _),
    Nat.add_sub_cancel_left, List.getD_append b post 0 i h]

theorem le16_mid (pre b post : List Nat) (i : Nat) (h : i + 2 ≤ b.length) :
    le16 (pre ++ (b ++ post)) (pre.length + i) = le16 b i := by
  rw [le16, le16, Nat.add_assoc, getD_mid pre b post i (by omega),
    getD_mid pre b post (i + 1) (by omega)]

theorem le32_mid (pre b post : List Nat) (i : Nat) (h : i + 4 ≤ b.length) :
    le32 (pre ++ (b ++ post)) (pre.length + i) = le32 b i := by
  rw [le32, le32]
  simp only [Nat.add_assoc]
  rw [getD_mid pre b post i (by omega), getD_mid pre b post (i + 1) (by omega),
    getD_mid pre b post (i + 2) (by omega), getD_mid pre b post (i + 3) (by omega)]

theorem le16_start (pre b post : List Nat) (i : Nat) (h : i + 2 ≤ b.length) :
    le16 (pre ++ (b ++ post)) (pre.length + i) = le16 b (0 + i) := by
  rw [le16_mid pre b post i h, Nat.zero_add]

theorem le32_at (pre b post : List Nat) (h : 4 ≤ b.length) :
    le32 (pre ++ (b ++ post)) pre.length = le32 b 0 := by
  have := le32_mid pre b post 0 (by omega)
  simpa using this

theorem slice_mid (pre b post : List Nat) :
    slice (pre ++ (b ++ post)) pre.length (pre.length + b.length) = b := by
  rw [slice, List.drop_left, Nat.add_sub_cancel_left, List.take_left]

theorem slice_all (b : List Nat) : slice b 0 (0 + b.length) = b := by
  rw [slice, List.drop_zero, Nat.zero_add, Nat.sub_zero, List.take_length]

theorem readHeader_mid (pre b post : List Nat) (h : 16 ≤ b.length) :
    readHeader (pre ++ (b ++ post)) pre.length = readHeader b 0 := by
  rw [readHeader, readHeader]
  have h0 := le32_at pre b post (by omega)
  have h4 := le16_mid pre b post 4 (by omega)
  have h6 := le16_mid pre b post 6 (by omega)
  have h8 := le32_mid pre b post 8 (by omega)
  have h12 := le32_mid pre b post 12 (by omega)
  rw [h0, h4, h6, h8, h12]

theorem getD_take (l : List Nat) (n i : Nat) (h : i < n) :
    (l.take n).getD i 0 = l.getD i 0 := by
  rw [List.getD_eq_getD_get? _ 0 i, List.getD_eq_getD_get? _ 0 i,
    List.get?_eq_getElem?, List.get?_eq_getElem?, List.getElem?_take_of_lt h]

theorem le32_take (l : List Nat) (n : Nat) (h : 4 ≤ n) :
    le32 (l.take n) 0 = le32 l 0 := by
  rw [le32, le32, getD_take l n 0 (by omega), getD_take l n 1 (by omega),
    getD_take l n 2 (by omega), getD_take l n 3 (by omega)]

/-! ## Decoding a well-formed message -/

theorem withEvent_length (m : NlMsg) : (withEvent m).length = m.length := by
  rcases hm : m.hdr with _ | hh
  · simp only [withEvent, hm]
  · simp only [withEvent, hm]
    split <;> rfl

theorem withEvent_error (m : NlMsg) : (withEvent m).error = m.error := by
  rcases hm : m.hdr with _ | hh
  · simp only [withEvent, hm]
  · simp only [withEvent, hm]
    split <;> rfl

/-- A well-formed message decodes without aborting, and the decoded
message's `length` equals the message's byte count (so the scan offset
advances over exactly this message). -/
theorem decodeMsg_wf (mmap : MsgMap) (dsem : DSem) (b : List Nat) (kerr : Option Nat)
    (h16 : 16 ≤ b.length) (hlen : le32 b 0 = b.length)
    (hk : kerr = none ∨ 36 ≤ b.length) :
    ∃ m, decodeMsg mmap dsem b 0 kerr = .ok m ∧ m.length = b.length := by
  rcases kerr with _ | code
  · simp only [decodeMsg]
    rw [if_neg (by omega), show (readHeader b 0).length = b.length from hlen,
      if_neg (by omega), slice_all b]
    rcases hp : payloadDecode mmap dsem (readHeader b 0).type (b.drop 16) with e | p
    · simp only [hp]
      exact ⟨_, rfl, by rw [withEvent_length]⟩
    · simp only [hp]
      exact ⟨_, rfl, by rw [withEvent_length]⟩
  · have h36 : 36 ≤ b.length := by
      rcases hk with hk | hk
      · exact absurd hk (fun hh => Option.noConfusion hh)
      · exact hk
    simp only [decodeMsg]
    rw [if_neg (by omega), show (readHeader b 0).length = b.length from hlen,
      if_neg (by omega), slice_all b]
    rcases hp : payloadDecode mmap dsem (readHeader b 0).type (b.drop 16) with e | p
    · simp only [hp]
      exact ⟨_, rfl, by rw [withEvent_length]⟩
    · simp only [hp]
      rw [if_neg (by omega), if_neg (by rw [List.length_drop]; omega)]
      by_cases he : (b.drop 20).length < (readHeader (b.drop 20) 0).length
      · rw [if_pos he]
        exact ⟨_, rfl, by rw [withEvent_length]⟩
      · rw [if_neg he]
        rcases hep : payloadDecode mmap dsem (readHeader (b.drop 20) 0).type
            (slice (b.drop 20) 16 (readHeader (b.drop 20) 0).length) with e | ep
        · simp only [hep]
          exact ⟨_, rfl, by rw [withEvent_length]⟩
        · simp only [hep]
          exact ⟨_, rfl, by rw [withEvent_length]⟩

/-- A well-formed message decodes to `theMsg` and its length is the
message's byte count. -/
theorem decodeOne_wf (mmap : MsgMap) (dsem : DSem) (b : List Nat) (hw : wfMsg b) :
    decodeOne mmap dsem b 0 = .ok (theMsg mmap dsem b) ∧
    (theMsg mmap dsem b).length = b.length := by
  obtain ⟨h16, hlen, h2⟩ := hw
  have key : ∃ m, decodeOne mmap dsem b 0 = .ok m ∧ m.length = b.length := by
    rw [decodeOne, show (0 + 4) = 4 from rfl]
    by_cases ht : le16 b 4 = 2
    · have h20 := (h2 ht).1
      rw [readKerr, if_pos ht, if_neg (by omega), show (0 + 16) = 16 from rfl]
      by_cases hc : 0 < absSigned (le32 b 16)
      · simp only [if_pos hc]
        exact decodeMsg_wf mmap dsem b _ h16 hlen (Or.inr ((h2 ht).2 hc))
      · simp only [if_neg hc]
        exact decodeMsg_wf mmap dsem b _ h16 hlen (Or.inl rfl)
    · rw [readKerr, if_neg ht]
      exact decodeMsg_wf mmap dsem b _ h16 hlen (Or.inl rfl)
  obtain ⟨m, hm, hl⟩ := key
  constructor
  · rw [theMsg, hm]
  · rw [theMsg, hm]
    exact hl

/-- Decoding at a message boundary inside a larger buffer sees exactly the
message's own bytes: for a well-formed message every read stays inside the
message's extent. -/
theorem decodeOne_mid (mmap : MsgMap) (dsem : DSem) (pre b post : List Nat)
    (hw : wfMsg b) :
    decodeOne mmap dsem (pre ++ (b ++ post)) pre.length = decodeOne mmap dsem b 0 := by
  obtain ⟨h16, hlen, h2⟩ := hw
  have hL : (pre ++ (b ++ post)).length = pre.length + (b.length + post.length) := by
    simp [List.length_append]
  have ht4 : le16 (pre ++ (b ++ post)) (pre.length + 4) = le16 b 4 :=
    le16_mid pre b post 4 (by omega)
  have hkerr : readKerr (pre ++ (b ++ post)) pre.length (le16 b 4)
      = readKerr b 0 (le16 b 4) := by
    rw [readKerr, readKerr]
    by_cases ht : le16 b 4 = 2
    · have h20 := (h2 ht).1
      rw [if_pos ht, if_pos ht, if_neg (by omega), if_neg (by omega),
        show (0 + 16) = 16 from rfl, le32_mid pre b post 16 (by omega)]
    · rw [if_neg ht, if_neg ht]
  have hdm : ∀ kerr, decodeMsg mmap dsem (pre ++ (b ++ post)) pre.length kerr
      = decodeMsg mmap dsem b 0 kerr := by
    intro kerr
    simp only [decodeMsg]
    rw [readHeader_mid pre b post h16,
      show (readHeader b 0).length = b.length from hlen]
    rw [if_neg (show ¬ (pre ++ (b ++ post)).length < pre.length + 16 from by omega),
      if_neg (show ¬ b.length < 0 + 16 from by omega),
      if_neg (show ¬ (pre ++ (b ++ post)).length < pre.length + b.length from by omega),
      if_neg (show ¬ b.length < 0 + b.length from by omega),
      slice_mid pre b post, slice_all b]
  rw [decodeOne, decodeOne, show (0 + 4) = 4 from rfl, ht4, hkerr]
  rcases hk : readKerr b 0 (le16 b 4) with e | kerr
  · rfl
  · exact hdm kerr

/-! ## Stepping the scan loop -/

/-- The loop exits when the offset has consumed the whole buffer. -/
theorem parseGo_done (mmap : MsgMap) (dsem : DSem) (sock : Option Nat) (f : Nat)
    (data : List Nat) (offset : Nat) (defrag : Defrag) (acc : List NlMsg)
    (h : data.length ≤ offset) :
    parseGo mmap dsem sock (f + 1) data offset defrag acc = .ok (acc.reverse, defrag) := by
  simp only [parseGo]
  rw [if_neg (by omega)]

/-- One loop iteration at the boundary of a complete well-formed message:
the message is decoded and the offset advances by its length. -/
theorem parseGo_msg (mmap : MsgMap) (dsem : DSem) (sock : Option Nat) (f : Nat)
    (pre b post : List Nat) (defrag : Defrag) (acc : List NlMsg) (hw : wfMsg b) :
    parseGo mmap dsem sock (f + 1) (pre ++ (b ++ post)) pre.length defrag acc
      = parseGo mmap dsem sock f (pre ++ (b ++ post)) (pre.length + b.length) defrag
          (theMsg mmap dsem b :: acc) := by
  have h16 := hw.1
  have hlen := hw.2.1
  have hL : (pre ++ (b ++ post)).length = pre.length + (b.length + post.length) := by
    simp [List.length_append]
  have hdec := decodeOne_mid mmap dsem pre b post hw
  have hok := (decodeOne_wf mmap dsem b hw).1
  have hml := (decodeOne_wf mmap dsem b hw).2
  simp only [parseGo]
  rw [if_pos (show pre.length < (pre ++ (b ++ post)).length from by omega),
    if_neg (show ¬ (pre ++ (b ++ post)).length < pre.length + 6 from by omega)]
  cases sock with
  | none =>
    simp only [hdec, hok, hml]
  | some s =>
    have hle : le32 (pre ++ (b ++ post)) pre.length = b.length := by
      rw [le32_at pre b post (by omega), hlen]
    simp only [hle, hdec, hok, hml]
    rw [if_neg (show ¬ (pre ++ (b ++ post)).length < b.length + pre.length from by omega)]

/-- A partial trailing message (at least the 6-byte prefix visible, but not
all declared bytes): with reassembly enabled the loop stores the remainder
and returns. -/
theorem parseGo_partial (mmap : MsgMap) (dsem : DSem) (s : Nat) (f : Nat)
    (pre b : List Nat) (defrag : Defrag) (acc : List NlMsg) (r : Nat)
    (hw : wfMsg b) (hr6 : 6 ≤ r) (hrb : r < b.length) :
    parseGo mmap dsem (some s) (f + 1) (pre ++ b.take r) pre.length defrag acc
      = .ok (acc.reverse, defragSet defrag s (b.take r)) := by
  have hlen := hw.2.1
  have htl : (b.take r).length = r := by rw [List.length_take]; omega
  have hL : (pre ++ b.take r).length = pre.length + r := by
    rw [List.length_append, htl]
  have hle : le32 (pre ++ b.take r) pre.length = b.length := by
    have h1 : le32 (pre ++ (b.take r ++ [])) pre.length = le32 (b.take r) 0 :=
      le32_at pre (b.take r) [] (by omega)
    rw [List.append_nil] at h1
    rw [h1, le32_take b r (by omega), hlen]
  simp only [parseGo]
  rw [if_pos (show pre.length < (pre ++ b.take r).length from by omega),
    if_neg (show ¬ (pre ++ b.take r).length < pre.length + 6 from by omega),
    hle,
    if_pos (show (pre ++ b.take r).length < b.length + pre.length from by omega),
    List.drop_left]

/-- Scanning a run of complete well-formed messages consumes them one per
iteration, decoding each in buffer order. -/
theorem parseGo_run (mmap : MsgMap) (dsem : DSem) (sock : Option Nat)
    (ms : List (List Nat)) (hw : ∀ b ∈ ms, wfMsg b) :
    ∀ (pre tail : List Nat) (f : Nat) (defrag : Defrag) (acc : List NlMsg),
    parseGo mmap dsem sock (ms.length + f) (pre ++ (ms.flatten ++ tail)) pre.length defrag acc
      = parseGo mmap dsem sock f (pre ++ (ms.flatten ++ tail))
          (pre.length + ms.flatten.length) defrag
          ((ms.map (theMsg mmap dsem)).reverse ++ acc) := by
  induction ms with
  | nil =>
    intro pre tail f defrag acc
    simp
  | cons b ms ih =>
    intro pre tail f defrag acc
    have hwb : wfMsg b := hw b (List.mem_cons_self b ms)
    have hwms : ∀ x ∈ ms, wfMsg x := fun x hx => hw x (List.mem_cons_of_mem b hx)
    have hfu : (b :: ms).length + f = (ms.length + f) + 1 := by
      rw [List.length_cons]
      omega
    rw [hfu, List.flatten_cons, List.append_assoc b ms.flatten tail,
      parseGo_msg mmap dsem sock (ms.length + f) pre b (ms.flatten ++ tail) defrag acc hwb,
      ← List.append_assoc pre b (ms.flatten ++ tail),
      show pre.length + b.length = (pre ++ b).length from (List.length_append pre b).symm,
      ih hwms (pre ++ b) tail f defrag (theMsg mmap dsem b :: acc)]
    rw [List.append_assoc pre b (ms.flatten ++ tail), List.length_append pre b,
      List.length_append b ms.flatten,
      show pre.length + b.length + ms.flatten.length
          = pre.length + (b.length + ms.flatten.length) from by omega,
      show ((b :: ms).map (theMsg mmap dsem)).reverse ++ acc
          = (ms.map (theMsg mmap dsem)).reverse ++ (theMsg mmap dsem b :: acc) from by simp]

/-- Each well-formed message holds at least one byte, so a buffer of `n`
messages is at least `n` bytes long (the fuel argument of the scan loop). -/
theorem count_le_flatten (ms : List (List Nat)) (h : ∀ b ∈ ms, wfMsg b) :
    ms.length ≤ ms.flatten.length := by
  induction ms with
  | nil => simp
  | cons b ms ih =>
    have h16 := (h b (List.mem_cons_self b ms)).1
    have := ih (fun x hx => h x (List.mem_cons_of_mem b hx))
    rw [List.flatten_cons, List.length_append, List.length_cons]
    omega

theorem defragGet_nil (s : Nat) : defragGet [] s = none := rfl

theorem defragGet_single_self (s : Nat) (v : List Nat) :
    defragGet [(s, v)] s = some v := by
  simp [defragGet]

theorem defragErase_single_self (s : Nat) (v : List Nat) :
    defragErase [(s, v)] s = [] := by
  simp [defragErase]

theorem defragSet_nil (s : Nat) (v : List Nat) : defragSet [] s v = [(s, v)] := rfl

/-- A buffer that is exactly a run of complete well-formed messages scans to
the decoded messages in order, leaving the defragmentation dictionary
untouched. -/
theorem parseGo_full (mmap : MsgMap) (dsem : DSem) (sock : Option Nat)
    (ms : List (List Nat)) (h : ∀ b ∈ ms, wfMsg b) (defrag : Defrag) :
    parseGo mmap dsem sock (ms.flatten.length + 1) ms.flatten 0 defrag []
      = .ok (ms.map (theMsg mmap dsem), defrag) := by
  have hc := count_le_flatten ms h
  have hfu : ms.flatten.length + 1 = ms.length + ((ms.flatten.length - ms.length) + 1) := by
    omega
  have hrun := parseGo_run mmap dsem sock ms h [] []
    ((ms.flatten.length - ms.length) + 1) defrag []
  simp only [List.nil_append, List.append_nil, List.length_nil, Nat.zero_add] at hrun
  rw [hfu, hrun, parseGo_done mmap dsem sock (ms.flatten.length - ms.length) ms.flatten
    ms.flatten.length defrag _ (le_refl _)]
  simp

/-- `parse` on a whole multi-message buffer with reassembly enabled and no
pending partial buffer. -/
theorem parse_msgs (mmap : MsgMap) (dsem : DSem) (s : Nat) (ms : List (List Nat))
    (h : ∀ b ∈ ms, wfMsg b) :
    parse mmap dsem ms.flatten (some s) [] = (.ok (ms.map (theMsg mmap dsem)), []) := by
  simp only [parse, defragGet_nil, parseGo_full mmap dsem (some s) ms h []]

/-- `parse` of one complete well-formed message without a connection
identity. -/
theorem parse_one (mmap : MsgMap) (dsem : DSem) (b : List Nat) (hw : wfMsg b) :
    parse mmap dsem b none [] = (.ok [theMsg mmap dsem b], []) := by
  have hfl : ([b] : List (List Nat)).flatten = b := by simp
  have hone := parseGo_full mmap dsem none [b]
    (fun x hx => by rw [List.mem_singleton.mp hx]; exact hw) []
  rw [hfl] at hone
  simp only [List.map_cons, List.map_nil] at hone
  simp only [parse, hone]

/-- `parse` resuming from a stored partial buffer: the saved bytes are
prepended, the dict entry is dropped, and the merged stream scans whole. -/
theorem parse_resume (mmap : MsgMap) (dsem : DSem) (s : Nat) (save data2 : List Nat)
    (ms : List (List Nat)) (h : ∀ b ∈ ms, wfMsg b)
    (hdata : save ++ data2 = ms.flatten) :
    parse mmap dsem data2 (some s) [(s, save)]
      = (.ok (ms.map (theMsg mmap dsem)), []) := by
  simp only [parse, defragGet_single_self, defragErase_single_self, hdata,
    parseGo_full mmap dsem (some s) ms h []]

/-- `parse` of a run of complete messages followed by a partial one (at
least 6 bytes of it): the complete messages are returned, the partial tail
is stored for the identity. -/
theorem parse_run_partial (mmap : MsgMap) (dsem : DSem) (s : Nat)
    (ms1 : List (List Nat)) (b : List Nat) (r : Nat)
    (hw1 : ∀ x ∈ ms1, wfMsg x) (hwb : wfMsg b) (hr6 : 6 ≤ r) (hrb : r < b.length) :
    parse mmap dsem (ms1.flatten ++ b.take r) (some s) []
      = (.ok (ms1.map (theMsg mmap dsem)), [(s, b.take r)]) := by
  have htl : (b.take r).length = r := by rw [List.length_take]; omega
  have hc := count_le_flatten ms1 hw1
  have hL : (ms1.flatten ++ b.take r).length = ms1.flatten.length + r := by
    rw [List.length_append, htl]
  have hfu : (ms1.flatten ++ b.take r).length + 1
      = ms1.length + ((ms1.flatten.length - ms1.length + r) + 1) := by
    omega
  have hrun := parseGo_run mmap dsem (some s) ms1 hw1 [] (b.take r)
    ((ms1.flatten.length - ms1.length + r) + 1) [] []
  simp only [List.nil_append, List.length_nil, Nat.zero_add] at hrun
  have hpart := parseGo_partial mmap dsem s (ms1.flatten.length - ms1.length + r)
    ms1.flatten b [] ((ms1.map (theMsg mmap dsem)).reverse ++ []) r hwb hr6 hrb
  simp only [List.append_nil] at hrun hpart
  simp only [List.reverse_reverse] at hpart
  simp only [parse, defragGet_nil, hfu, hrun, hpart, defragSet_nil]

/-! ## Claim C7: the error-frame code convention -/

theorem le16_shift (pre rest : List Nat) (i : Nat) :
    le16 (pre ++ rest) (pre.length + i) = le16 rest i := by
  rw [le16, le16,
    show pre.length + i + 1 = pre.length + (i + 1) from by omega,
    List.getD_append_right pre rest 0 (pre.length + i) (by omega),
    List.getD_append_right pre rest 0 (pre.length + (i + 1)) (by omega),
    Nat.add_sub_cancel_left, Nat.add_sub_cancel_left]

theorem le32_shift (pre rest : List Nat) (i : Nat) :
    le32 (pre ++ rest) (pre.length + i) = le32 rest i := by
  rw [le32, le32,
    show pre.length + i + 1 = pre.length + (i + 1) from by omega,
    show pre.length + i + 2 = pre.length + (i + 2) from by omega,
    show pre.length + i + 3 = pre.length + (i + 3) from by omega,
    List.getD_append_right pre rest 0 (pre.length + i) (by omega),
    List.getD_append_right pre rest 0 (pre.length + (i + 1)) (by omega),
    List.getD_append_right pre rest 0 (pre.length + (i + 2)) (by omega),
    List.getD_append_right pre rest 0 (pre.length + (i + 3)) (by omega),
    Nat.add_sub_cancel_left, Nat.add_sub_cancel_left, Nat.add_sub_cancel_left,
    Nat.add_sub_cancel_left]

theorem le32_enc32 (n : Nat) (rest : List Nat) (h : n < 4294967296) :
    le32 (enc32 n ++ rest) 0 = n := by
  simp only [le32, enc32, List.cons_append, List.nil_append, List.getD_cons_zero,
    List.getD_cons_succ]
  omega

theorem le16_enc16 (n : Nat) (rest : List Nat) (h : n < 65536) :
    le16 (enc16 n ++ rest) 0 = n := by
  simp only [le16, enc16, List.cons_append, List.nil_append, List.getD_cons_zero,
    List.getD_cons_succ]
  omega

theorem mkErrFrame_length (u : Nat) (e : List Nat) :
    (mkErrFrame u e).length = 20 + e.length := by
  simp [mkErrFrame, enc32, enc16, List.length_append]
  omega

theorem mkErrFrame_drop20 (u : Nat) (e : List Nat) : (mkErrFrame u e).drop 20 = e := by
  rw [mkErrFrame, List.drop_append_eq_append_drop,
    List.drop_eq_nil_of_le (by simp [enc32, enc16]),
    show 20 - (enc32 (20 + e.length) ++ enc16 2 ++ enc16 0 ++ enc32 0 ++ enc32 0
      ++ enc32 u).length = 0 from by simp [enc32, enc16], List.drop_zero,
    List.nil_append]

theorem mkErrFrame_assoc (u : Nat) (e : List Nat) :
    mkErrFrame u e = enc32 (20 + e.length)
      ++ (enc16 2 ++ (enc16 0 ++ (enc32 0 ++ (enc32 0 ++ (enc32 u ++ e))))) := by
  rw [mkErrFrame]
  simp [List.append_assoc]

theorem mkErrFrame_assoc2 (u : Nat) (e : List Nat) :
    mkErrFrame u e = (enc32 (20 + e.length) ++ enc16 2 ++ enc16 0 ++ enc32 0 ++ enc32 0)
      ++ (enc32 u ++ e) := by
  rw [mkErrFrame]
  simp [List.append_assoc]

/-- Claim C7: for a well-formed error frame (type 2, embedded request of at
least a full header), the signed 4-byte code at offset 16 decides the
kernel-error attachment — a zero code leaves the message with no error
attached, a non-zero code attaches a kernel error of exactly that
magnitude. -/
theorem nlmsg_error_code_attachment (dsem : DSem) (u : Nat) (e : List Nat)
    (h16 : 16 ≤ e.length) (hel : le32 e 0 = e.length)
    (hub : u < 4294967296) (heb : 20 + e.length < 4294967296) :
    ∃ m, parse mmap0 dsem (mkErrFrame u e) none [] = (.ok [m], []) ∧
      (absSigned u = 0 → m.error = none) ∧
      (0 < absSigned u → m.error = some (.kernel (absSigned u))) := by
  have hFlen := mkErrFrame_length u e
  have hF0 : le32 (mkErrFrame u e) 0 = 20 + e.length := by
    rw [mkErrFrame_assoc, le32_enc32 _ _ heb]
  have ht : le16 (mkErrFrame u e) 4 = 2 := by
    rw [mkErrFrame_assoc,
      show (4 : Nat) = (enc32 (20 + e.length)).length + 0 from by simp [enc32],
      le16_shift, le16_enc16 2 _ (by omega)]
  have h16F : le32 (mkErrFrame u e) 16 = u := by
    rw [mkErrFrame_assoc2,
      show (16 : Nat) = (enc32 (20 + e.length) ++ enc16 2 ++ enc16 0 ++ enc32 0
        ++ enc32 0).length + 0 from by simp [enc32, enc16],
      le32_shift, le32_enc32 u e hub]
  have hw : wfMsg (mkErrFrame u e) := by
    refine ⟨by omega, by rw [hF0, hFlen], fun _ => ⟨by omega, fun _ => by omega⟩⟩
  have hRH : (readHeader (mkErrFrame u e) 0).length = (mkErrFrame u e).length := by
    rw [show (readHeader (mkErrFrame u e) 0).length = le32 (mkErrFrame u e) 0 from rfl,
      hF0, hFlen]
  have hM : ∃ M, decodeOne mmap0 dsem (mkErrFrame u e) 0 = .ok M ∧
      (absSigned u = 0 → M.error = none) ∧
      (0 < absSigned u → M.error = some (.kernel (absSigned u))) := by
    rw [decodeOne, show (0 : Nat) + 4 = 4 from rfl, ht, readKerr, if_pos rfl,
      if_neg (show ¬ (mkErrFrame u e).length < 0 + 20 from by rw [hFlen]; omega),
      show (0 : Nat) + 16 = 16 from rfl, h16F]
    by_cases hc : 0 < absSigned u
    · simp only [if_pos hc]
      simp only [decodeMsg]
      rw [if_neg (show ¬ (mkErrFrame u e).length < 0 + 16 from by rw [hFlen]; omega),
        hRH, if_neg (show ¬ (mkErrFrame u e).length < 0 + (mkErrFrame u e).length
          from by omega),
        slice_all (mkErrFrame u e)]
      simp only [payloadDecode, mmap0, mapGet]
      rw [if_neg (show ¬ (mkErrFrame u e).length < 26 from by rw [hFlen]; omega),
        mkErrFrame_drop20, if_neg (show ¬ e.length < 16 from by omega),
        show (readHeader e 0).length = e.length from by
          rw [show (readHeader e 0).length = le32 e 0 from rfl, hel],
        if_neg (show ¬ e.length < e.length from by omega)]
      exact ⟨_, rfl, fun h0 => absurd hc (by omega), fun _ => by rw [withEvent_error]⟩
    · simp only [if_neg hc]
      simp only [decodeMsg]
      rw [if_neg (show ¬ (mkErrFrame u e).length < 0 + 16 from by rw [hFlen]; omega),
        hRH, if_neg (show ¬ (mkErrFrame u e).length < 0 + (mkErrFrame u e).length
          from by omega),
        slice_all (mkErrFrame u e)]
      simp only [payloadDecode, mmap0, mapGet]
      exact ⟨_, rfl, fun _ => by rw [withEvent_error], fun hpos => absurd hpos hc⟩
  obtain ⟨M, hMeq, hz, hnz⟩ := hM
  have hth : theMsg mmap0 dsem (mkErrFrame u e) = M := by
    rw [theMsg, hMeq]
  refine ⟨theMsg mmap0 dsem (mkErrFrame u e), parse_one mmap0 dsem (mkErrFrame u e) hw,
    ?_, ?_⟩
  · rw [hth]; exact hz
  · rw [hth]; exact hnz

/-- Witness for C7 at a concrete error frame: code 5 attaches `kernel 5`,
code 0 attaches nothing. -/
theorem nlmsg_error_code_attachment_witness :
    (∃ m, parse mmap0 dsem0 (mkErrFrame 5 msg16) none [] = (.ok [m], []) ∧
      (absSigned 5 = 0 → m.error = none) ∧
      (0 < absSigned 5 → m.error = some (.kernel (absSigned 5)))) ∧
    (∃ m, parse mmap0 dsem0 (mkErrFrame 0 msg16) none [] = (.ok [m], []) ∧
      (absSigned 0 = 0 → m.error = none) ∧
      (0 < absSigned 0 → m.error = some (.kernel (absSigned 0)))) :=
  ⟨nlmsg_error_code_attachment dsem0 5 msg16 (by decide) (by decide) (by decide)
      (by decide),
    nlmsg_error_code_attachment dsem0 0 msg16 (by decide) (by decide) (by decide)
      (by decide)⟩

/-! ## Claim C5: a header-decode failure stalls the scan forever -/

/-- Claim C5 (code bug): on `badBuf` (a truncated message whose header
cannot be decoded), the empty replacement message has `length = 0`, so
`offset += msg.length` never advances and the `while` loop never
terminates — for every fuel the loop is still running.  Consequently
`parse` returns the non-termination marker instead of a message list:
decode errors on the header path do abort the parse (by hanging it),
contrary to the claim that scanning continues. -/
theorem parse_header_error_diverges :
    (∀ (fuel : Nat) (acc : List NlMsg),
      parseGo mmap0 dsem0 none fuel badBuf 0 [] acc = .error .fuel) ∧
    parse mmap0 dsem0 badBuf none [] = (.error .fuel, []) := by
  have hd : decodeOne mmap0 dsem0 badBuf 0 = .ok emptyMsg := by decide
  have main : ∀ (fuel : Nat) (acc : List NlMsg),
      parseGo mmap0 dsem0 none fuel badBuf 0 [] acc = .error .fuel := by
    intro fuel
    induction fuel with
    | zero => intro acc; rw [parseGo]
    | succ n ih =>
      intro acc
      simp only [parseGo]
      rw [if_pos (by decide), if_neg (by decide)]
      simp only [hd]
      exact ih (emptyMsg :: acc)
  refine ⟨main, ?_⟩
  rw [parse]
  simp only [main (badBuf.length + 1) []]

/-! ## Claim C1: split invariance of parse -/

/-- Counterexample to C1 as stated: splitting one well-formed 16-byte
message after 3 bytes makes the first `parse` call abort — the loop reads
the 6-byte length/type prefix with `struct.unpack('IH', data.read(6))` and
a 3-byte buffer yields a short read, an uncaught `struct.error` — and the
3 bytes are not stored, so the second call sees only the remaining 13
bytes (which also fail), while parsing the whole buffer yields the one
message.  Arbitrary split positions therefore do not reassemble. -/
theorem parse_split_midheader_cex :
    wfMsg msg16 ∧
    parse mmap0 dsem0 msg16 (some 0) [] = (.ok [theMsg mmap0 dsem0 msg16], []) ∧
    parse mmap0 dsem0 (msg16.take 3) (some 0) [] = (.error .structError, []) ∧
    parse mmap0 dsem0 (msg16.drop 3) (some 0) [] = (.error .fuel, []) := by
  decide

/-- Claim C1 (amended): splitting a buffer of well-formed messages into two
chunks is invariant under reassembly *provided* the split point leaves
either exactly a message boundary or at least the 6-byte length/type
prefix of the straddled message in the first chunk: then the two
sequential `parse` calls with the same identity return lists whose
concatenation is the whole-buffer parse, and no partial buffer remains. -/
theorem parse_split_reassembly (mmap : MsgMap) (dsem : DSem) (s : Nat)
    (ms1 ms2 : List (List Nat)) (r : Nat)
    (hw : ∀ b ∈ ms1 ++ ms2, wfMsg b)
    (hr : (ms2 = [] ∧ r = 0) ∨
      (∃ b rest, ms2 = b :: rest ∧ (r = 0 ∨ (6 ≤ r ∧ r < b.length)))) :
    ∃ r1 r2 d1,
      parse mmap dsem ((ms1.flatten ++ ms2.flatten).take (ms1.flatten.length + r))
          (some s) [] = (.ok r1, d1) ∧
      parse mmap dsem ((ms1.flatten ++ ms2.flatten).drop (ms1.flatten.length + r))
          (some s) d1 = (.ok r2, []) ∧
      parse mmap dsem (ms1.flatten ++ ms2.flatten) (some s) [] = (.ok (r1 ++ r2), []) := by
  have hw1 : ∀ b ∈ ms1, wfMsg b := fun b hb => hw b (List.mem_append_left _ hb)
  have hw2 : ∀ b ∈ ms2, wfMsg b := fun b hb => hw b (List.mem_append_right _ hb)
  have hwhole : parse mmap dsem (ms1.flatten ++ ms2.flatten) (some s) []
      = (.ok (ms1.map (theMsg mmap dsem) ++ ms2.map (theMsg mmap dsem)), []) := by
    rw [← List.flatten_append, parse_msgs mmap dsem s (ms1 ++ ms2) hw, List.map_append]
  rcases hr with ⟨h2nil, hr0⟩ | ⟨b, rest, h2cons, hrr⟩
  · subst h2nil hr0
    refine ⟨ms1.map (theMsg mmap dsem), [], [], ?_, ?_, ?_⟩
    · rw [show ((ms1.flatten ++ (List.flatten ([] : List (List Nat)))).take
          (ms1.flatten.length + 0)) = ms1.flatten from by simp]
      exact parse_msgs mmap dsem s ms1 hw1
    · rw [show ((ms1.flatten ++ (List.flatten ([] : List (List Nat)))).drop
          (ms1.flatten.length + 0)) = [] from by simp]
      have := parse_msgs mmap dsem s [] (fun x hx => absurd hx (List.not_mem_nil x))
      simpa using this
    · simpa using hwhole
  · subst h2cons
    rcases hrr with hr0 | ⟨hr6, hrb⟩
    · subst hr0
      refine ⟨ms1.map (theMsg mmap dsem), (b :: rest).map (theMsg mmap dsem), [],
        ?_, ?_, hwhole⟩
      · rw [Nat.add_zero, List.take_left]
        exact parse_msgs mmap dsem s ms1 hw1
      · rw [Nat.add_zero, List.drop_left]
        exact parse_msgs mmap dsem s (b :: rest) hw2
    · have hwb : wfMsg b := hw2 b (List.mem_cons_self b rest)
      have htake : (ms1.flatten ++ (b :: rest).flatten).take (ms1.flatten.length + r)
          = ms1.flatten ++ b.take r := by
        rw [List.take_append_eq_append_take, List.take_of_length_le (by omega),
          show ms1.flatten.length + r - ms1.flatten.length = r from by omega,
          List.flatten_cons, List.take_append_eq_append_take,
          show r - b.length = 0 from by omega, List.take_zero, List.append_nil]
      have hdrop : (ms1.flatten ++ (b :: rest).flatten).drop (ms1.flatten.length + r)
          = b.drop r ++ rest.flatten := by
        rw [List.drop_append_eq_append_drop, List.drop_eq_nil_of_le (by omega),
          show ms1.flatten.length + r - ms1.flatten.length = r from by omega,
          List.nil_append, List.flatten_cons, List.drop_append_eq_append_drop,
          show r - b.length = 0 from by omega, List.drop_zero]
      refine ⟨ms1.map (theMsg mmap dsem), (b :: rest).map (theMsg mmap dsem),
        [(s, b.take r)], ?_, ?_, hwhole⟩
      · rw [htake]
        exact parse_run_partial mmap dsem s ms1 b r hw1 hwb hr6 hrb
      · rw [hdrop]
        exact parse_resume mmap dsem s (b.take r) (b.drop r ++ rest.flatten) (b :: rest)
          hw2 (by rw [← List.append_assoc, List.take_append_drop, List.flatten_cons])

/-- Witness for the amended C1: a 16-byte message followed by a 20-byte one,
split 6 bytes into the second message. -/
theorem parse_split_reassembly_witness :
    (∀ b ∈ [msg16] ++ [msgA], wfMsg b) ∧
    ∃ r1 r2 d1,
      parse mmap0 dsem0
          ((List.flatten [msg16] ++ List.flatten [msgA]).take
            ((List.flatten [msg16]).length + 6)) (some 0) [] = (.ok r1, d1) ∧
      parse mmap0 dsem0
          ((List.flatten [msg16] ++ List.flatten [msgA]).drop
            ((List.flatten [msg16]).length + 6)) (some 0) d1 = (.ok r2, []) ∧
      parse mmap0 dsem0 (List.flatten [msg16] ++ List.flatten [msgA]) (some 0) []
        = (.ok (r1 ++ r2), []) :=
  ⟨by decide,
    parse_split_reassembly mmap0 dsem0 0 [msg16] [msgA] 6 (by decide)
      (Or.inr ⟨msgA, [], rfl, Or.inr ⟨by decide, by decide⟩⟩)⟩

/-! ## Claim C2: the reassembly-buffer invariant -/

theorem defragGet_set_self (d : Defrag) (s : Nat) (v : List Nat) :
    defragGet (defragSet d s v) s = some v := by
  induction d with
  | nil => simp [defragSet, defragGet]
  | cons e d ih =>
    by_cases he : e.1 = s
    · simp [defragSet, defragGet, he]
    · simp [defragSet, defragGet, he, ih]

theorem defragGet_erase_self (d : Defrag) (s : Nat) :
    defragGet (defragErase d s) s = none := by
  induction d with
  | nil => simp [defragErase, defragGet]
  | cons e d ih =>
    by_cases he : e.1 = s
    · simp [defragErase, he, ih]
    · simp [defragErase, defragGet, he, ih]

theorem keys_defragSet (d : Defrag) (s : Nat) (v : List Nat) :
    (defragSet d s v).map (fun e => e.1)
      = if s ∈ d.map (fun e => e.1) then d.map (fun e => e.1)
        else d.map (fun e => e.1) ++ [s] := by
  induction d with
  | nil => simp [defragSet]
  | cons e d ih =>
    by_cases he : e.1 = s
    · simp only [defragSet, if_pos he, List.map_cons]
      rw [if_pos (by rw [List.mem_cons]; exact Or.inl he.symm), he]
    · simp only [defragSet, if_neg he, List.map_cons, ih]
      by_cases hs : s ∈ d.map (fun e => e.1)
      · rw [if_pos hs, if_pos (by rw [List.mem_cons]; exact Or.inr hs)]
      · rw [if_neg hs,
          if_neg (by
            rw [List.mem_cons]
            rintro (hh | hh)
            · exact he hh.symm
            · exact hs hh),
          List.cons_append]

theorem keysNodup_defragSet (d : Defrag) (s : Nat) (v : List Nat)
    (h : keysNodup d) : keysNodup (defragSet d s v) := by
  rw [keysNodup, keys_defragSet]
  by_cases hs : s ∈ d.map (fun e => e.1)
  · rw [if_pos hs]
    exact h
  · rw [if_neg hs]
    rw [List.nodup_append]
    exact ⟨h, List.nodup_singleton s, by simpa using hs⟩

theorem defragErase_sublist (d : Defrag) (s : Nat) :
    List.Sublist (defragErase d s) d := by
  induction d with
  | nil => simp [defragErase]
  | cons e d ih =>
    by_cases he : e.1 = s
    · rw [defragErase, if_pos he]
      exact List.Sublist.cons e ih
    · rw [defragErase, if_neg he]
      exact List.Sublist.cons₂ e ih

theorem keysNodup_defragErase (d : Defrag) (s : Nat) (h : keysNodup d) :
    keysNodup (defragErase d s) := by
  exact List.Nodup.sublist (List.Sublist.map (fun e => e.1) (defragErase_sublist d s)) h

/-- Any message produced by the loop body either stalls (`length = 0`) or
spans exactly its declared length. -/
theorem decodeOne_length (mmap : MsgMap) (dsem : DSem) (data : List Nat)
    (offset : Nat) (m : NlMsg) (h : decodeOne mmap dsem data offset = .ok m) :
    m.length = 0 ∨ m.length = le32 data offset := by
  rw [decodeOne] at h
  split at h
  · exact absurd h (fun hh => Except.noConfusion hh)
  · simp only [decodeMsg] at h
    repeat' split at h
    all_goals
      first
      | exact absurd h (fun hh => Except.noConfusion hh)
      | (rw [← Except.ok.inj h]
         first
         | exact Or.inl rfl
         | (right; rw [withEvent_length]; exact rfl))

/-- The scan loop with reassembly enabled: on a normal return, the messages
scanned account for a prefix of the buffer and the defragmentation state is
either untouched (everything consumed) or holds exactly the unconsumed
suffix under the connection identity. -/
theorem parseGo_sock_inv (mmap : MsgMap) (dsem : DSem) (s : Nat) :
    ∀ (fuel : Nat) (data : List Nat) (offset : Nat) (defrag : Defrag)
      (acc : List NlMsg) (msgs : List NlMsg) (d' : Defrag),
    offset ≤ data.length →
    parseGo mmap dsem (some s) fuel data offset defrag acc = .ok (msgs, d') →
    ∃ ms, msgs = acc.reverse ++ ms ∧
      ((d' = defrag ∧ offset + (ms.map (fun m => m.length)).sum = data.length) ∨
       (d' = defragSet defrag s (data.drop (offset + (ms.map (fun m => m.length)).sum)) ∧
        offset + (ms.map (fun m => m.length)).sum < data.length)) := by
  intro fuel
  induction fuel with
  | zero =>
    intro data offset defrag acc msgs d' _ h
    rw [parseGo] at h
    exact absurd h (fun hh => Except.noConfusion hh)
  | succ n ih =>
    intro data offset defrag acc msgs d' hoff h
    simp only [parseGo] at h
    by_cases hlt : offset < data.length
    · rw [if_pos hlt] at h
      by_cases h6 : data.length < offset + 6
      · rw [if_pos h6] at h
        exact absurd h (fun hh => Except.noConfusion hh)
      · rw [if_neg h6] at h
        by_cases hsave : data.length < le32 data offset + offset
        · rw [if_pos hsave] at h
          have h1 := Except.ok.inj h
          have h2 : msgs = acc.reverse := (congrArg Prod.fst h1).symm
          have h3 : d' = defragSet defrag s (data.drop offset) :=
            (congrArg Prod.snd h1).symm
          refine ⟨[], by simpa using h2, Or.inr ?_⟩
          simp only [List.map_nil, List.sum_nil, Nat.add_zero]
          exact ⟨h3, hlt⟩
        · rw [if_neg hsave] at h
          rcases hdec : decodeOne mmap dsem data offset with e | m
          · simp only [hdec] at h
            exact absurd h (fun hh => Except.noConfusion hh)
          · simp only [hdec] at h
            have hml := decodeOne_length mmap dsem data offset m hdec
            have hbound : offset + m.length ≤ data.length := by
              rcases hml with h0 | hl
              · omega
              · rw [hl]; omega
            obtain ⟨ms, hmsgs, hrest⟩ := ih data (offset + m.length) defrag (m :: acc)
              msgs d' hbound h
            refine ⟨m :: ms, ?_, ?_⟩
            · rw [hmsgs]
              simp
            · have hsum : offset + m.length + (ms.map (fun m => m.length)).sum
                  = offset + ((m :: ms).map (fun m => m.length)).sum := by
                simp only [List.map_cons, List.sum_cons]
                omega
              rcases hrest with ⟨hd, hs⟩ | ⟨hd, hs⟩
              · left
                rw [← hsum]
                exact ⟨hd, hs⟩
              · right
                rw [← hsum]
                exact ⟨hd, hs⟩
    · rw [if_neg hlt] at h
      have h1 := Except.ok.inj h
      have h2 : msgs = acc.reverse := (congrArg Prod.fst h1).symm
      have h3 : d' = defrag := (congrArg Prod.snd h1).symm
      refine ⟨[], by simpa using h2, Or.inl ⟨h3, ?_⟩⟩
      simp only [List.map_nil, List.sum_nil, Nat.add_zero]
      omega

/-- Counterexample to C2 as stated: a 3-byte first arrival (the first bytes
of a well-formed 16-byte message) is neither parsed nor stored — the parse
call aborts with `struct.error` and the defragmentation dictionary stays
empty, so the stored bytes concatenated with subsequent input can never
equal the original stream (the 3 bytes are lost). -/
theorem defrag_bytes_lost_cex :
    parse mmap0 dsem0 (msg16.take 3) (some 0) [] = (.error .structError, []) ∧
    defragGet [] 0 = none ∧ msg16.take 3 ≠ [] := by
  decide

/-- Claim C2 (amended): whenever a `parse` call with reassembly returns
normally, the per-identity buffer invariant holds: key uniqueness of the
dictionary is preserved (at most one buffer per identity), the bytes are
conserved — the lengths of the returned messages plus the bytes now stored
for the identity equal the previously stored bytes plus the input — and
any stored buffer is exactly the unconsumed suffix of (previously stored
bytes ++ input).  (A call that aborts on a short header read instead
discards the merged bytes; see the counterexample.) -/
theorem defrag_single_buffer_conservation (mmap : MsgMap) (dsem : DSem) (s : Nat)
    (data : List Nat) (defrag : Defrag) (msgs : List NlMsg) (d' : Defrag)
    (hnd : keysNodup defrag)
    (h : parse mmap dsem data (some s) defrag = (.ok msgs, d')) :
    keysNodup d' ∧
    (msgs.map (fun m => m.length)).sum + ((defragGet d' s).getD []).length
      = ((defragGet defrag s).getD []).length + data.length ∧
    (∀ rem, defragGet d' s = some rem →
      rem = (((defragGet defrag s).getD []) ++ data).drop
        ((msgs.map (fun m => m.length)).sum)) := by
  simp only [parse] at h
  rcases hget : defragGet defrag s with _ | old
  · simp only [hget] at h
    rcases hpg : parseGo mmap dsem (some s) (data.length + 1) data 0 defrag []
      with e | ⟨⟨msgs0, d0⟩⟩
    · simp only [hpg] at h
      exact absurd (congrArg Prod.fst h) (fun hh => Except.noConfusion hh)
    · simp only [hpg] at h
      have hm : msgs = msgs0 := by
        have := congrArg Prod.fst h
        exact (Except.ok.inj this).symm
      have hd : d' = d0 := (congrArg Prod.snd h).symm
      subst hm hd
      obtain ⟨ms, hms, hcase⟩ := parseGo_sock_inv mmap dsem s (data.length + 1) data 0
        defrag [] msgs d' (by omega) hpg
      simp only [List.reverse_nil, List.nil_append] at hms
      subst hms
      rcases hcase with ⟨hd0, hsum⟩ | ⟨hd0, hsum⟩
      · subst hd0
        rw [hget]
        simp only [Nat.zero_add] at hsum
        refine ⟨hnd, by simp [hsum], ?_⟩
        intro rem hrem
        exact absurd hrem (fun hh => Option.noConfusion hh)
      · subst hd0
        rw [defragGet_set_self]
        simp only [Nat.zero_add] at hsum ⊢
        refine ⟨keysNodup_defragSet defrag s _ hnd, ?_, ?_⟩
        · simp only [Option.getD_some, Option.getD_none, List.length_nil,
            List.length_drop]
          omega
        · intro rem hrem
          rw [← Option.some.inj hrem]
          simp
  · simp only [hget] at h
    rcases hpg : parseGo mmap dsem (some s) ((old ++ data).length + 1) (old ++ data) 0
      (defragErase defrag s) [] with e | ⟨⟨msgs0, d0⟩⟩
    · simp only [hpg] at h
      exact absurd (congrArg Prod.fst h) (fun hh => Except.noConfusion hh)
    · simp only [hpg] at h
      have hm : msgs = msgs0 := by
        have := congrArg Prod.fst h
        exact (Except.ok.inj this).symm
      have hd : d' = d0 := (congrArg Prod.snd h).symm
      subst hm hd
      obtain ⟨ms, hms, hcase⟩ := parseGo_sock_inv mmap dsem s ((old ++ data).length + 1)
        (old ++ data) 0 (defragErase defrag s) [] msgs d' (by omega) hpg
      simp only [List.reverse_nil, List.nil_append] at hms
      subst hms
      rcases hcase with ⟨hd0, hsum⟩ | ⟨hd0, hsum⟩
      · subst hd0
        rw [defragGet_erase_self]
        simp only [Nat.zero_add, List.length_append] at hsum
        refine ⟨keysNodup_defragErase defrag s hnd, by simp; omega, ?_⟩
        intro rem hrem
        exact absurd hrem (fun hh => Option.noConfusion hh)
      · subst hd0
        rw [defragGet_set_self]
        simp only [Nat.zero_add, List.length_append] at hsum ⊢
        refine ⟨keysNodup_defragSet _ s _ (keysNodup_defragErase defrag s hnd), ?_, ?_⟩
        · simp only [Option.getD_some, List.length_drop, List.length_append]
          omega
        · intro rem hrem
          rw [← Option.some.inj hrem]
          simp

/-- Witness for the amended C2: resuming a 6-byte stored prefix of a
16-byte message with its remaining 10 bytes conserves all 16 bytes into the
single returned message and clears the buffer. -/
theorem defrag_single_buffer_conservation_witness :
    keysNodup ([] : Defrag) ∧
    ([theMsg mmap0 dsem0 msg16].map (fun m => m.length)).sum
        + ((defragGet [] 0).getD []).length
      = ((defragGet [(0, msg16.take 6)] 0).getD []).length + (msg16.drop 6).length ∧
    (∀ rem, defragGet ([] : Defrag) 0 = some rem →
      rem = (((defragGet [(0, msg16.take 6)] 0).getD []) ++ msg16.drop 6).drop
        (([theMsg mmap0 dsem0 msg16].map (fun m => m.length)).sum)) :=
  defrag_single_buffer_conservation mmap0 dsem0 0 (msg16.drop 6) [(0, msg16.take 6)]
    [theMsg mmap0 dsem0 msg16] [] (by decide) (by decide)

/-! ## Claim C6: types 16 and 17 receive no event tag -/

/-- Counterexample to C6 as stated: the 40-byte buffer of the two 20-byte
messages of types 16 and 17 decodes to two messages in buffer order, but
neither carries an event-class tag — the code tags only types 1-4
(`if mtype in (1, 2, 3, 4)`), and 16 and 17 are outside that set. -/
theorem parse_event_types_16_17_cex :
    ∃ m1 m2, parse mmap0 dsem0 (msgA ++ msgB) none [] = (.ok [m1, m2], []) ∧
      m1.event = none ∧ m2.event = none ∧
      (∀ h, m1.hdr = some h → h.type = 16) ∧ (∀ h, m2.hdr = some h → h.type = 17) := by
  refine ⟨theMsg mmap0 dsem0 msgA, theMsg mmap0 dsem0 msgB, by decide, by decide,
    by decide, ?_, ?_⟩
  · intro h hh
    have : (theMsg mmap0 dsem0 msgA).hdr
        = some ⟨20, 16, 0, 0, 0⟩ := by decide
    rw [this] at hh
    rw [← Option.some.inj hh]
  · intro h hh
    have : (theMsg mmap0 dsem0 msgB).hdr
        = some ⟨20, 17, 0, 0, 0⟩ := by decide
    rw [this] at hh
    rw [← Option.some.inj hh]

/-- Claim C6 (amended): the 40-byte two-message buffer decodes to exactly
two messages in buffer order with their types 16 and 17 decoded, but with
no event-class tag attached, because the code's event set is `(1, 2, 3, 4)`;
a message whose type is in that set does get a tag. -/
theorem parse_two_messages_no_event :
    parse mmap0 dsem0 (msgA ++ msgB) none []
      = (.ok [{ hdr := some ⟨20, 16, 0, 0, 0⟩, error := none, errmsg := none,
                event := none, length := 20, payload := some [1, 2, 3, 4] },
              { hdr := some ⟨20, 17, 0, 0, 0⟩, error := none, errmsg := none,
                event := none, length := 20, payload := some [5, 6, 7, 8] }], []) ∧
    (theMsg mmap0 dsem0 msg16).hdr = some ⟨16, 0, 0, 0, 0⟩ ∧
    (theMsg mmap0 dsem0 msg16).event = none := by
  decide

/-- Witness for C8 at a concrete bound non-fixed socket. -/
theorem close_release_once_witness :
    ∃ sk' pool',
      close ⟨7, some 5, false, some (7 + 5 * 4194304), 0⟩ ⟨{5}⟩ = .ok (sk', pool') ∧
      sk'.epid = none ∧ sk'.port = some 5 ∧ sk'.fixed = false ∧
      (((false : Bool) = true ∨ (some (7 + 5 * 4194304) : Option Nat) = none) →
        pool' = ⟨{5}⟩) ∧
      (∀ e p, (some (7 + 5 * 4194304) : Option Nat) = some e →
        (some 5 : Option Nat) = some p → (false : Bool) = false →
        pool'.allocated = ({5} : Finset Nat).erase p) ∧
      close sk' pool' = .ok (sk', pool') :=
  close_release_once ⟨7, some 5, false, some (7 + 5 * 4194304), 0⟩ ⟨{5}⟩
    (fun e _ => ⟨5, rfl, fun _ => by simp⟩)

end Nlsock
